import Mathlib

/-!
# Verification of the half_earth rule engine

Shallow embedding of the core rule engine of the `half_earth` repository:

* `Engine` — the event pool and its per-turn `roll` (src/engine/src/events.rs).
* `Hes` — the effect algebra (`apply`/`unapply`/`Mul`), project lifecycle
  (`years_for_points`, `build`, `roll_outcome`) from
  src/hes-engine/src/events/effects.rs and src/hes-engine/src/projects.rs.

Rust `f32` values are modelled as rationals (`ℚ`) where only field arithmetic
and comparisons occur, and as extended non-negative reals (`ℝ≥0∞`) where the
code computes with `powf` and division that can produce `+∞`.
-/

namespace HalfEarth

namespace Engine

/-- Per-turn cap on spontaneous event firings (src/engine/src/events.rs line 10). -/
def MAX_EVENTS_PER_TURN : Nat := 5

/-- Scheduling status of an event in the pool (src/engine/src/events.rs lines 12-17). -/
inductive Status where
  | Random : Status
  | Queued : Nat → Status
  | Triggered : Status
deriving DecidableEq, Repr

/-- An event in the pool. The source struct (src/engine/src/events.rs lines 65-95)
also carries `name`, `locked`, `local`, `probabilities`, `choices` and `effects`;
`roll` reads only the identity of the event, `repeats` and the probability
closure `prob`, so only those are embedded.  The game state the probability
closure reads is abstracted as a type parameter `σ`. -/
structure Event (σ : Type) where
  id : Nat
  repeats : Bool
  prob : σ → ℚ

/-- The event pool: an insertion-ordered list of (event, status) pairs
(src/engine/src/events.rs lines 19-22). -/
abbrev Pool (σ : Type) := List (Event σ × Status)

/-- The `retain` predicate of the start-of-roll cleanup
(src/engine/src/events.rs line 33): an entry is kept unless its status is
`Queued(0)` or it is a non-repeating `Triggered` event. -/
def keepEntry {σ : Type} (es : Event σ × Status) : Bool :=
  match es.2 with
  | Status.Queued 0 => false
  | Status.Triggered => es.1.repeats
  | _ => true

/-- The start-of-roll cleanup (src/engine/src/events.rs line 33). -/
def cleanup {σ : Type} (p : Pool σ) : Pool σ :=
  p.filter keepEntry

/-- The scan loop of `roll` (src/engine/src/events.rs lines 36-58), after the
shuffle.  `cnt` is the current length of the `happening` list (the events
accumulated so far, including those fired by earlier scanned entries), and
`k` indexes the stream `draws` of uniform `[0,1)` values produced by
`rng.gen::<f32>()`.  Returns the events fired by this suffix, the updated
(event, status) entries in order, and the next unused draw index.

A `Queued i` entry decrements `i` and fires when the decremented counter is
zero; the cleanup that precedes this scan guarantees `i ≥ 1` here (a `Queued 0`
entry never reaches the scan), so the truncated `Nat` subtraction coincides
with the Rust `usize` decrement.  A `Random` or `Triggered` entry is first
reset to `Random` when the event repeats, and then, only when the cap is not
yet reached, a draw is consumed and the event fires when the draw is `≤` the
computed probability. -/
def scanGo {σ : Type} (state : σ) (draws : Nat → ℚ) :
    Nat → Nat → Pool σ → (List (Event σ) × Pool σ × Nat)
  | _, k, [] => ([], [], k)
  | cnt, k, (ev, st) :: rest =>
    match st with
    | Status.Queued i =>
      if i - 1 = 0 then
        let r := scanGo state draws (cnt + 1) k rest
        (ev :: r.1, (ev, Status.Queued (i - 1)) :: r.2.1, r.2.2)
      else
        let r := scanGo state draws cnt k rest
        (r.1, (ev, Status.Queued (i - 1)) :: r.2.1, r.2.2)
    | _ =>
      let st0 := if ev.repeats then Status.Random else st
      if cnt < MAX_EVENTS_PER_TURN then
        if draws k ≤ ev.prob state then
          let r := scanGo state draws (cnt + 1) (k + 1) rest
          (ev :: r.1, (ev, Status.Triggered) :: r.2.1, r.2.2)
        else
          let r := scanGo state draws cnt (k + 1) rest
          (r.1, (ev, st0) :: r.2.1, r.2.2)
      else
        let r := scanGo state draws cnt k rest
        (r.1, (ev, st0) :: r.2.1, r.2.2)

/-- One call of `EventPool::roll` (src/engine/src/events.rs lines 29-61),
as a relation because the shuffle is an external source of randomness:
there is an ordering `l` of the cleaned-up pool (the shuffle) such that the
scan of `l` returns the firing list `res` and leaves the pool entries `p'`. -/
def RollStep {σ : Type} (state : σ) (draws : Nat → ℚ) (p p' : Pool σ)
    (res : List (Event σ)) : Prop :=
  ∃ (l : Pool σ) (k : Nat),
    (cleanup p).Perm l ∧ scanGo state draws 0 0 l = (res, p', k)

/-- A sequence of `roll` calls: each step supplies its own game state and draw
stream (the caller passes the state and rng at every turn), with the draw
stream constrained by `D`.  `RollSeqP D p p' results` means the pool evolves
from `p` to `p'` across `results.length` rolls whose firing lists are
`results`, in order. -/
inductive RollSeqP {σ : Type} (D : (Nat → ℚ) → Prop) :
    Pool σ → Pool σ → List (List (Event σ)) → Prop where
  | nil (p : Pool σ) : RollSeqP D p p []
  | step {p p' p'' : Pool σ} {res : List (Event σ)}
      {rs : List (List (Event σ))} (state : σ) (draws : Nat → ℚ)
      (hD : D draws) (h : RollStep state draws p p' res)
      (hrest : RollSeqP D p' p'' rs) : RollSeqP D p p'' (res :: rs)

/-- Roll sequences with unconstrained draw streams. -/
abbrev RollSeq {σ : Type} : Pool σ → Pool σ → List (List (Event σ)) → Prop :=
  RollSeqP (fun _ => True)

/-- Entries surviving the cleanup were already in the pool. -/
theorem mem_of_mem_cleanup {σ : Type} {p : Pool σ} {x : Event σ × Status}
    (h : x ∈ cleanup p) : x ∈ p :=
  List.mem_of_mem_filter h

/-- The scan neither fires nor retains an event absent from the scanned list. -/
theorem scanGo_not_mem {σ : Type} (state : σ) (draws : Nat → ℚ) (e : Event σ)
    (l : Pool σ) : ∀ cnt k : Nat, (∀ st', (e, st') ∉ l) →
    e ∉ (scanGo state draws cnt k l).1 ∧
      ∀ st', (e, st') ∉ (scanGo state draws cnt k l).2.1 := by
  induction l with
  | nil => intro cnt k _; simp [scanGo]
  | cons hd rest ih =>
    intro cnt k hl
    obtain ⟨ev, st⟩ := hd
    have hne : e ≠ ev := fun h => hl st (by simp [h])
    have hrest : ∀ st', (e, st') ∉ rest := fun st' h =>
      hl st' (List.mem_cons_of_mem _ h)
    cases st with
    | Queued i =>
      by_cases hi : i - 1 = 0 <;>
        simpa [scanGo, hi, hne, Prod.ext_iff] using ih _ _ hrest
    | Random =>
      simp only [scanGo]
      split <;> [skip; exact ⟨(ih _ _ hrest).1, by
        simpa [hne, Prod.ext_iff] using (ih _ _ hrest).2⟩]
      split <;>
        [exact ⟨by simpa [hne] using (ih _ _ hrest).1, by
          simpa [hne, Prod.ext_iff] using (ih _ _ hrest).2⟩;
         exact ⟨(ih _ _ hrest).1, by
          simpa [hne, Prod.ext_iff] using (ih _ _ hrest).2⟩]
    | Triggered =>
      simp only [scanGo]
      split <;> [skip; exact ⟨(ih _ _ hrest).1, by
        simpa [hne, Prod.ext_iff] using (ih _ _ hrest).2⟩]
      split <;>
        [exact ⟨by simpa [hne] using (ih _ _ hrest).1, by
          simpa [hne, Prod.ext_iff] using (ih _ _ hrest).2⟩;
         exact ⟨(ih _ _ hrest).1, by
          simpa [hne, Prod.ext_iff] using (ih _ _ hrest).2⟩]

/-- If the probability of `e` at the scanned state is `0`, every drawn value is
strictly positive, and every pool entry for `e` has status `Random`, then the
scan does not fire `e` and every retained entry for `e` still has status
`Random`. -/
theorem scanGo_prob_zero {σ : Type} (state : σ) (draws : Nat → ℚ) (e : Event σ)
    (hprob : e.prob state = 0) (hpos : ∀ k, 0 < draws k) (l : Pool σ) :
    ∀ cnt k : Nat, (∀ st', (e, st') ∈ l → st' = Status.Random) →
    e ∉ (scanGo state draws cnt k l).1 ∧
      ∀ st', (e, st') ∈ (scanGo state draws cnt k l).2.1 →
        st' = Status.Random := by
  induction l with
  | nil => intro cnt k _; simp [scanGo]
  | cons hd rest ih =>
    intro cnt k hl
    obtain ⟨ev, st⟩ := hd
    have hrest : ∀ st', (e, st') ∈ rest → st' = Status.Random := fun st' h =>
      hl st' (List.mem_cons_of_mem _ h)
    by_cases hev : ev = e
    · subst hev
      have hst : st = Status.Random := hl st (by simp)
      subst hst
      simp only [scanGo]
      split
      · split
        · rename_i hdraw
          rw [hprob] at hdraw
          exact absurd hdraw (hpos k).not_le
        · refine ⟨(ih _ _ hrest).1, fun st' hmem => ?_⟩
          rcases List.mem_cons.mp hmem with h | h
          · have h2 := congrArg Prod.snd h
            simpa [ite_self] using h2
          · exact (ih _ _ hrest).2 st' h
      · refine ⟨(ih _ _ hrest).1, fun st' hmem => ?_⟩
        rcases List.mem_cons.mp hmem with h | h
        · have h2 := congrArg Prod.snd h
          simpa [ite_self] using h2
        · exact (ih _ _ hrest).2 st' h
    · have hne : e ≠ ev := fun h => hev h.symm
      cases st with
      | Queued i =>
        by_cases hi : i - 1 = 0 <;>
          simpa [scanGo, hi, hne, Prod.ext_iff] using ih _ _ hrest
      | Random =>
        simp only [scanGo]
        split
        · split <;>
            · refine ⟨?_, fun st' hmem => ?_⟩
              · simpa [hne] using (ih _ _ hrest).1
              · rcases List.mem_cons.mp hmem with h | h
                · exact absurd (congrArg Prod.fst h) hne
                · exact (ih _ _ hrest).2 st' h
        · refine ⟨(ih _ _ hrest).1, fun st' hmem => ?_⟩
          rcases List.mem_cons.mp hmem with h | h
          · exact absurd (congrArg Prod.fst h) hne
          · exact (ih _ _ hrest).2 st' h
      | Triggered =>
        simp only [scanGo]
        split
        · split <;>
            · refine ⟨?_, fun st' hmem => ?_⟩
              · simpa [hne] using (ih _ _ hrest).1
              · rcases List.mem_cons.mp hmem with h | h
                · exact absurd (congrArg Prod.fst h) hne
                · exact (ih _ _ hrest).2 st' h
        · refine ⟨(ih _ _ hrest).1, fun st' hmem => ?_⟩
          rcases List.mem_cons.mp hmem with h | h
          · exact absurd (congrArg Prod.fst h) hne
          · exact (ih _ _ hrest).2 st' h

/-- Behaviour of the scan on an event all of whose entries are `Queued i`:
statuses decrement to `Queued (i-1)`; an existing entry survives with the
decremented status; the event does not fire while the decremented counter is
nonzero, and fires as soon as it reaches zero — regardless of the cap. -/
theorem scanGo_queued {σ : Type} (state : σ) (draws : Nat → ℚ) (e : Event σ)
    (i : Nat) (l : Pool σ) :
    ∀ cnt k : Nat, (∀ st', (e, st') ∈ l → st' = Status.Queued i) →
    (∀ st', (e, st') ∈ (scanGo state draws cnt k l).2.1 →
        st' = Status.Queued (i - 1)) ∧
    ((e, Status.Queued i) ∈ l →
        (e, Status.Queued (i - 1)) ∈ (scanGo state draws cnt k l).2.1) ∧
    (i - 1 ≠ 0 → e ∉ (scanGo state draws cnt k l).1) ∧
    (i - 1 = 0 → (e, Status.Queued i) ∈ l →
        e ∈ (scanGo state draws cnt k l).1) := by
  induction l with
  | nil => intro cnt k _; simp [scanGo]
  | cons hd rest ih =>
    intro cnt k hl
    obtain ⟨ev, st⟩ := hd
    have hrest : ∀ st', (e, st') ∈ rest → st' = Status.Queued i := fun st' h =>
      hl st' (List.mem_cons_of_mem _ h)
    by_cases hev : ev = e
    · subst hev
      have hst : st = Status.Queued i := hl st (by simp)
      subst hst
      simp only [scanGo]
      by_cases hi : i - 1 = 0
      · rw [if_pos hi]
        refine ⟨fun st' hmem => ?_, fun _ => List.mem_cons_self _ _,
          fun hne' => absurd hi hne', fun _ _ => List.mem_cons_self _ _⟩
        rcases List.mem_cons.mp hmem with h | h
        · exact congrArg Prod.snd h
        · exact (ih _ _ hrest).1 st' h
      · rw [if_neg hi]
        refine ⟨fun st' hmem => ?_, fun _ => List.mem_cons_self _ _,
          fun _ => (ih _ _ hrest).2.2.1 hi, fun h => absurd h hi⟩
        rcases List.mem_cons.mp hmem with h | h
        · exact congrArg Prod.snd h
        · exact (ih _ _ hrest).1 st' h
    · have hne : e ≠ ev := fun h => hev h.symm
      have hmem_tail : (e, Status.Queued i) ∈ (ev, st) :: rest →
          (e, Status.Queued i) ∈ rest := by
        intro h
        rcases List.mem_cons.mp h with h | h
        · exact absurd (congrArg Prod.fst h) hne
        · exact h
      cases st with
      | Queued j =>
        by_cases hj : j - 1 = 0 <;>
        · simp only [scanGo, hj, if_true, if_false, reduceIte]
          refine ⟨fun st' hmem => ?_, fun h => List.mem_cons_of_mem _
              ((ih _ _ hrest).2.1 (hmem_tail h)), fun hiz => ?_, fun hiz h => ?_⟩
          · rcases List.mem_cons.mp hmem with h | h
            · exact absurd (congrArg Prod.fst h) hne
            · exact (ih _ _ hrest).1 st' h
          · simpa [hne] using (ih _ _ hrest).2.2.1 hiz
          · simpa [hne] using (ih _ _ hrest).2.2.2 hiz (hmem_tail h)
      | Random =>
        simp only [scanGo]
        split
        · split <;>
          · refine ⟨fun st' hmem => ?_, fun h => List.mem_cons_of_mem _
                ((ih _ _ hrest).2.1 (hmem_tail h)), fun hiz => ?_, fun hiz h => ?_⟩
            · rcases List.mem_cons.mp hmem with h | h
              · exact absurd (congrArg Prod.fst h) hne
              · exact (ih _ _ hrest).1 st' h
            · simpa [hne] using (ih _ _ hrest).2.2.1 hiz
            · simpa [hne] using (ih _ _ hrest).2.2.2 hiz (hmem_tail h)
        · refine ⟨fun st' hmem => ?_, fun h => List.mem_cons_of_mem _
              ((ih _ _ hrest).2.1 (hmem_tail h)), fun hiz => ?_, fun hiz h => ?_⟩
          · rcases List.mem_cons.mp hmem with h | h
            · exact absurd (congrArg Prod.fst h) hne
            · exact (ih _ _ hrest).1 st' h
          · exact (ih _ _ hrest).2.2.1 hiz
          · exact (ih _ _ hrest).2.2.2 hiz (hmem_tail h)
      | Triggered =>
        simp only [scanGo]
        split
        · split <;>
          · refine ⟨fun st' hmem => ?_, fun h => List.mem_cons_of_mem _
                ((ih _ _ hrest).2.1 (hmem_tail h)), fun hiz => ?_, fun hiz h => ?_⟩
            · rcases List.mem_cons.mp hmem with h | h
              · exact absurd (congrArg Prod.fst h) hne
              · exact (ih _ _ hrest).1 st' h
            · simpa [hne] using (ih _ _ hrest).2.2.1 hiz
            · simpa [hne] using (ih _ _ hrest).2.2.2 hiz (hmem_tail h)
        · refine ⟨fun st' hmem => ?_, fun h => List.mem_cons_of_mem _
              ((ih _ _ hrest).2.1 (hmem_tail h)), fun hiz => ?_, fun hiz h => ?_⟩
          · rcases List.mem_cons.mp hmem with h | h
            · exact absurd (congrArg Prod.fst h) hne
            · exact (ih _ _ hrest).1 st' h
          · exact (ih _ _ hrest).2.2.1 hiz
          · exact (ih _ _ hrest).2.2.2 hiz (hmem_tail h)

/-- An event with no entry in the pool never appears in any roll of a
sequence, and never re-enters the pool. -/
theorem rollSeqP_not_mem {σ : Type} {D : (Nat → ℚ) → Prop} (e : Event σ) :
    ∀ {p p' : Pool σ} {rs : List (List (Event σ))}, RollSeqP D p p' rs →
    (∀ st', (e, st') ∉ p) →
    (∀ res ∈ rs, e ∉ res) ∧ ∀ st', (e, st') ∉ p' := by
  intro p p' rs hseq
  induction hseq with
  | nil _ => exact fun h => ⟨by simp, h⟩
  | step state draws hD hstep hrest ih =>
    intro hp
    obtain ⟨l, k, hperm, heq⟩ := hstep
    have hl : ∀ st', (e, st') ∉ l := fun st' h =>
      hp st' (mem_of_mem_cleanup (hperm.symm.subset h))
    have hscan := scanGo_not_mem state draws e l 0 0 hl
    rw [heq] at hscan
    have hnext := ih hscan.2
    refine ⟨fun res' hres' => ?_, hnext.2⟩
    rcases List.mem_cons.mp hres' with h | h
    · exact h ▸ hscan.1
    · exact hnext.1 res' h

/-- One roll of a pool all of whose entries for `e` are `Queued 0`: the
cleanup drops them, so `e` does not fire and vanishes from the pool. -/
theorem rollStep_queued_zero {σ : Type} (e : Event σ) {state : σ}
    {draws : Nat → ℚ} {p q : Pool σ} {res : List (Event σ)}
    (hall : ∀ st', (e, st') ∈ p → st' = Status.Queued 0)
    (hstep : RollStep state draws p q res) :
    (∀ st', (e, st') ∉ q) ∧ e ∉ res := by
  obtain ⟨l, k, hperm, heq⟩ := hstep
  have hl : ∀ st', (e, st') ∉ l := by
    intro st' h
    have hp := hperm.symm.subset h
    have h0 := hall st' (mem_of_mem_cleanup hp)
    subst h0
    have hk := (List.mem_filter.mp hp).2
    exact Bool.noConfusion hk
  have hscan := scanGo_not_mem state draws e l 0 0 hl
  rw [heq] at hscan
  exact ⟨hscan.2, hscan.1⟩

/-- One roll of a pool all of whose entries for `e` are `Queued n`, `n ≥ 1`:
entries survive with their counter decremented, and `e` is fired exactly when
the decremented counter reaches zero (irrespective of the firing cap). -/
theorem rollStep_queued_step {σ : Type} (e : Event σ) (n : Nat) {state : σ}
    {draws : Nat → ℚ} {p p₁ : Pool σ} {res : List (Event σ)}
    (hstep : RollStep state draws p p₁ res) (hn : 1 ≤ n)
    (hall : ∀ st', (e, st') ∈ p → st' = Status.Queued n)
    (hmem : (e, Status.Queued n) ∈ p) :
    (∀ st', (e, st') ∈ p₁ → st' = Status.Queued (n - 1)) ∧
    (e, Status.Queued (n - 1)) ∈ p₁ ∧
    (2 ≤ n → e ∉ res) ∧
    (n = 1 → e ∈ res) := by
  obtain ⟨l, k, hperm, heq⟩ := hstep
  have hkeep : keepEntry (e, Status.Queued n) = true := by
    obtain ⟨m, rfl⟩ : ∃ m, n = m + 1 := ⟨n - 1, by omega⟩
    rfl
  have hmem_l : (e, Status.Queued n) ∈ l :=
    hperm.subset (List.mem_filter.mpr ⟨hmem, hkeep⟩)
  have hall_l : ∀ st', (e, st') ∈ l → st' = Status.Queued n := fun st' h =>
    hall st' (mem_of_mem_cleanup (hperm.symm.subset h))
  have hscan := scanGo_queued state draws e n l 0 0 hall_l
  rw [heq] at hscan
  exact ⟨hscan.1, hscan.2.1 hmem_l, fun h2 => hscan.2.2.1 (by omega),
    fun h1 => hscan.2.2.2 (by omega) hmem_l⟩

/-- A non-repeating event over the trivial state whose probability function is
constantly zero (it mirrors event id 2 of the source test `test_event_pool`). -/
def zeroProbEvent : Event Unit := ⟨2, false, fun _ => 0⟩

/-- C2 counterexample: the claim says a `Random` event whose probability
function evaluates to `0.0` is never included in the result of `roll`
"regardless of the values drawn from the random generator".  The firing test
is `rng.gen::<f32>() <= prob`, and `rng.gen::<f32>()` samples `[0,1)`, which
contains `0.0`; with a drawn value of exactly `0.0` the comparison `0 ≤ 0`
succeeds and the probability-0 event fires. -/
theorem claim_c2_counterexample :
    RollStep () (fun _ => 0) [(zeroProbEvent, Status.Random)]
      [(zeroProbEvent, Status.Triggered)] [zeroProbEvent] ∧
    zeroProbEvent ∈ [zeroProbEvent] :=
  ⟨⟨[(zeroProbEvent, Status.Random)], 1, List.Perm.refl _, rfl⟩, by simp⟩

/-- C2 (amended): an event whose probability function evaluates to `0.0` and
all of whose pool entries have status `Random` is never included in any roll
of any sequence of rolls, provided every value drawn from the generator is
strictly positive (the drawn value `0.0`, of probability `2⁻²⁴`, is the sole
exception). -/
theorem claim_c2_amended {σ : Type} (e : Event σ) (p p' : Pool σ)
    (rs : List (List (Event σ)))
    (hprob : ∀ s, e.prob s = 0)
    (hst : ∀ st', (e, st') ∈ p → st' = Status.Random)
    (hseq : RollSeqP (fun d => ∀ k, 0 < d k) p p' rs) :
    ∀ res ∈ rs, e ∉ res := by
  revert hst
  induction hseq with
  | nil _ => intro _; simp
  | step state draws hD hstep hrest ih =>
    intro hst
    obtain ⟨l, k, hperm, heq⟩ := hstep
    have hl : ∀ st', (e, st') ∈ l → st' = Status.Random := fun st' h =>
      hst st' (mem_of_mem_cleanup (hperm.symm.subset h))
    have hscan := scanGo_prob_zero state draws e (hprob state) hD l 0 0 hl
    rw [heq] at hscan
    intro res' hres'
    rcases List.mem_cons.mp hres' with h | h
    · exact h ▸ hscan.1
    · exact ih hscan.2 res' h

/-- Witness for C2 (amended): one roll with the positive draw `1`, on the
one-event pool holding `zeroProbEvent` with status `Random`, fires nothing. -/
theorem claim_c2_witness :
    (∀ s : Unit, zeroProbEvent.prob s = 0) ∧
    zeroProbEvent ∉ ([] : List (Event Unit)) := by
  have hseq : RollSeqP (fun d => ∀ k, 0 < d k)
      [(zeroProbEvent, Status.Random)] [(zeroProbEvent, Status.Random)]
      [[]] :=
    RollSeqP.step () (fun _ => 1) (fun _ => one_pos)
      ⟨[(zeroProbEvent, Status.Random)], 1, List.Perm.refl _, rfl⟩
      (RollSeqP.nil _)
  refine ⟨fun _ => rfl, ?_⟩
  refine claim_c2_amended zeroProbEvent _ _ _ (fun _ => rfl) ?_ hseq [] (by simp)
  intro st' h
  have h' := List.mem_singleton.mp h
  exact congrArg Prod.snd h'

/-- A non-repeating event over the trivial state, used to exercise `Queued`
insertion behaviour. -/
def queuedZeroEvent : Event Unit := ⟨3, false, fun _ => 1⟩

/-- C3 counterexample: an event inserted with status `Queued(0)` does not fire
on the next call to `roll` — the start-of-roll cleanup removes every
`Queued(0)` entry by status alone, newly inserted or not, before the
decrement-then-check scan runs.  No outcome of `roll` on this pool includes
the event. -/
theorem claim_c3_counterexample :
    RollStep () (fun _ => 0) [(queuedZeroEvent, Status.Queued 0)] [] [] ∧
    ¬ ∃ (p' : Pool Unit) (res : List (Event Unit)),
        RollStep () (fun _ => 0) [(queuedZeroEvent, Status.Queued 0)] p' res ∧
          queuedZeroEvent ∈ res := by
  constructor
  · exact ⟨[], 0, List.Perm.nil, rfl⟩
  · rintro ⟨p', res, ⟨l, k, hperm, heq⟩, hmem⟩
    have hl : l = [] := List.Perm.eq_nil hperm.symm
    subst hl
    have hres : ([] : List (Event Unit)) = res := congrArg Prod.fst heq
    rw [← hres] at hmem
    exact List.not_mem_nil _ hmem

/-- C3 (amended): the start-of-roll cleanup removes every `Queued(0)` entry,
whether it fired on a previous turn or was newly inserted.  An event all of
whose entries are `Queued(0)` therefore never fires — not on the next roll nor
on any later one — and is gone from the pool after the next roll. -/
theorem claim_c3_amended {σ : Type} (e : Event σ) (state : σ)
    (draws : Nat → ℚ) (p p' : Pool σ) (res : List (Event σ))
    (hstep : RollStep state draws p p' res)
    (hst : ∀ st', (e, st') ∈ p → st' = Status.Queued 0) :
    (e ∉ res ∧ ∀ st', (e, st') ∉ p') ∧
    ∀ {D : (Nat → ℚ) → Prop} (p'' : Pool σ) (rs : List (List (Event σ))),
      RollSeqP D p' p'' rs → ∀ r ∈ rs, e ∉ r := by
  have h0 := rollStep_queued_zero e hst hstep
  exact ⟨⟨h0.2, h0.1⟩,
    fun p'' rs hseq r hr => (rollSeqP_not_mem e hseq h0.1).1 r hr⟩

/-- Witness for C3 (amended) on the concrete one-event pool holding
`queuedZeroEvent` at `Queued(0)`: the next roll fires nothing and empties the
pool. -/
theorem claim_c3_witness :
    queuedZeroEvent ∉ ([] : List (Event Unit)) ∧
    ∀ st', (queuedZeroEvent, st') ∉ ([] : Pool Unit) :=
  (claim_c3_amended queuedZeroEvent () (fun _ => 0)
      [(queuedZeroEvent, Status.Queued 0)] [] []
      ⟨[], 0, List.Perm.nil, rfl⟩
      (fun _ h => congrArg Prod.snd (List.mem_singleton.mp h))).1

/-- A non-repeating event over the trivial state, used to exercise the
`Queued(1)` firing behaviour. -/
def queuedOneEvent : Event Unit := ⟨4, false, fun _ => 1⟩

/-- C4 counterexample: a `Queued(1)` event fires on the next roll, but it is
not removed from the pool "immediately after firing": the roll leaves it in
the pool with status `Queued(0)` (it is only removed by the next roll's
cleanup).  The outcome in which the pool is empty right after the firing roll
is impossible. -/
theorem claim_c4_counterexample :
    RollStep () (fun _ => 0) [(queuedOneEvent, Status.Queued 1)]
      [(queuedOneEvent, Status.Queued 0)] [queuedOneEvent] ∧
    ¬ RollStep () (fun _ => 0) [(queuedOneEvent, Status.Queued 1)] []
      [queuedOneEvent] := by
  constructor
  · exact ⟨[(queuedOneEvent, Status.Queued 1)], 0, List.Perm.refl _, rfl⟩
  · rintro ⟨l, k, hperm, heq⟩
    have hl : l = [(queuedOneEvent, Status.Queued 1)] :=
      (List.Perm.singleton_eq hperm).symm
    subst hl
    have h2 : [(queuedOneEvent, Status.Queued 0)] = ([] : Pool Unit) :=
      congrArg (fun t => t.2.1) heq
    exact List.cons_ne_nil _ _ h2

/-- C4 (amended): for every pool and every `n ≥ 1`, an event all of whose pool
entries have status `Queued(n)` fires exactly on the `n`-th subsequent roll —
not on any earlier one, and regardless of how full the firing list already is,
since the cap only throttles `Random`/`Triggered` firings.  It is not removed
within the firing roll: it remains in the pool with status `Queued(0)` and is
removed by the start-of-roll cleanup of the following roll, on which it does
not fire again. -/
theorem claim_c4_amended {σ : Type} (e : Event σ) :
    ∀ (n : Nat) (p p' : Pool σ) (rs : List (List (Event σ))),
      1 ≤ n →
      (∀ st', (e, st') ∈ p → st' = Status.Queued n) →
      (e, Status.Queued n) ∈ p →
      RollSeq p p' rs → rs.length = n →
      (∀ r ∈ rs.dropLast, e ∉ r) ∧
      (∃ last, rs.getLast? = some last ∧ e ∈ last) ∧
      (∀ st', (e, st') ∈ p' → st' = Status.Queued 0) ∧
      (∀ (state : σ) (draws : Nat → ℚ) (q : Pool σ) (res' : List (Event σ)),
          RollStep state draws p' q res' →
          (∀ st', (e, st') ∉ q) ∧ e ∉ res') := by
  intro n p p' rs
  induction rs generalizing n p with
  | nil =>
    intro h1 _ _ _ hlen
    simp at hlen
    omega
  | cons res rest ih =>
    intro h1 hall hmem hseq hlen
    by_cases h2 : 2 ≤ n
    · cases hseq with
      | step state draws hD hstep hrest =>
        obtain ⟨ha, hb, hc, -⟩ := rollStep_queued_step e n hstep h1 hall hmem
        have hnotres : e ∉ res := hc h2
        have hrest_len : rest.length = n - 1 := by
          simp at hlen; omega
        have ih' := ih (n - 1) _ (by omega) ha hb hrest hrest_len
        obtain ⟨ihdrop, ihlast, ihq0, ihfinal⟩ := ih'
        obtain ⟨r2, rest', rfl⟩ : ∃ r2 rest', rest = r2 :: rest' := by
          cases rest with
          | nil => exfalso; simp at hrest_len; omega
          | cons a b => exact ⟨a, b, rfl⟩
        refine ⟨?_, ?_, ihq0, ihfinal⟩
        · intro r hr
          rw [List.dropLast_cons₂] at hr
          rcases List.mem_cons.mp hr with h | h
          · exact h ▸ hnotres
          · exact ihdrop r h
        · rw [List.getLast?_cons_cons]
          exact ihlast
    · have hn1 : n = 1 := by omega
      subst hn1
      have hrest_nil : rest = [] := by
        simpa using hlen
      subst hrest_nil
      cases hseq with
      | step state draws hD hstep hrest =>
        obtain ⟨ha, hb, -, hd⟩ := rollStep_queued_step e 1 hstep le_rfl hall hmem
        have hin : e ∈ res := hd rfl
        cases hrest with
        | nil =>
          refine ⟨by simp, ⟨res, by simp, hin⟩, ha, ?_⟩
          intro state' draws' q res' hstep'
          exact rollStep_queued_zero e ha hstep'

/-- Witness for C4 (amended) with `n = 1` on the concrete one-event pool
holding `queuedOneEvent` at `Queued(1)`: the event fires on the very next
roll and stays in the pool as `Queued(0)`. -/
theorem claim_c4_witness :
    (∀ r ∈ ([[queuedOneEvent]] : List (List (Event Unit))).dropLast,
        queuedOneEvent ∉ r) ∧
    (∃ last, ([[queuedOneEvent]] : List (List (Event Unit))).getLast? =
        some last ∧ queuedOneEvent ∈ last) ∧
    (∀ st', (queuedOneEvent, st') ∈
        ([(queuedOneEvent, Status.Queued 0)] : Pool Unit) →
        st' = Status.Queued 0) ∧
    (∀ (state : Unit) (draws : Nat → ℚ) (q : Pool Unit)
        (res' : List (Event Unit)),
        RollStep state draws [(queuedOneEvent, Status.Queued 0)] q res' →
        (∀ st', (queuedOneEvent, st') ∉ q) ∧ queuedOneEvent ∉ res') :=
  claim_c4_amended queuedOneEvent 1 [(queuedOneEvent, Status.Queued 1)]
    [(queuedOneEvent, Status.Queued 0)] [[queuedOneEvent]] le_rfl
    (fun st' h => congrArg Prod.snd (List.mem_singleton.mp h))
    (by simp)
    (RollSeqP.step () (fun _ => 0) trivial
      ⟨[(queuedOneEvent, Status.Queued 1)], 0, List.Perm.refl _, rfl⟩
      (RollSeqP.nil _))
    rfl

/-- A repeating event over the trivial state with probability one. -/
def repeatEvent : Event Unit := ⟨5, true, fun _ => 1⟩

/-- A non-repeating event over the trivial state with probability one. -/
def nonRepEvent : Event Unit := ⟨6, false, fun _ => 1⟩

/-- C5: a non-repeating event that has fired (all of its pool entries are
`Triggered`) is never included in any later roll of any sequence — the next
roll's cleanup removes it before scanning.  Conversely, a repeating event has
its status reset to `Random` after triggering and can be included again: the
concrete repeating event `repeatEvent` fires on two consecutive rolls. -/
theorem claim_c5 :
    (∀ {σ : Type} (e : Event σ) (p p' : Pool σ)
        (rs : List (List (Event σ))),
        e.repeats = false →
        (∀ st', (e, st') ∈ p → st' = Status.Triggered) →
        RollSeq p p' rs → ∀ r ∈ rs, e ∉ r) ∧
    RollSeq [(repeatEvent, Status.Random)] [(repeatEvent, Status.Triggered)]
      [[repeatEvent], [repeatEvent]] := by
  constructor
  · intro σ e p p' rs hrep hall hseq
    cases hseq with
    | nil _ => simp
    | step state draws hD hstep hrest =>
      obtain ⟨l, k, hperm, heq⟩ := hstep
      have hl : ∀ st', (e, st') ∉ l := by
        intro st' h
        have hp := hperm.symm.subset h
        have h0 := hall st' (mem_of_mem_cleanup hp)
        subst h0
        have hk := (List.mem_filter.mp hp).2
        rw [show keepEntry (e, Status.Triggered) = e.repeats from rfl,
          hrep] at hk
        exact Bool.noConfusion hk
      have hscan := scanGo_not_mem state draws e l 0 0 hl
      rw [heq] at hscan
      have hnext := rollSeqP_not_mem e hrest hscan.2
      intro r hr
      rcases List.mem_cons.mp hr with h | h
      · exact h ▸ hscan.1
      · exact hnext.1 r h
  · exact RollSeqP.step () (fun _ => 0) trivial
      ⟨[(repeatEvent, Status.Random)], 1, List.Perm.refl _, rfl⟩
      (RollSeqP.step () (fun _ => 0) trivial
        ⟨[(repeatEvent, Status.Triggered)], 1, List.Perm.refl _, rfl⟩
        (RollSeqP.nil _))

/-- Witness for C5 at the concrete pool holding the already-fired
non-repeating `nonRepEvent`: the next roll does not include it. -/
theorem claim_c5_witness : nonRepEvent ∉ ([] : List (Event Unit)) :=
  claim_c5.1 nonRepEvent [(nonRepEvent, Status.Triggered)] [] [[]] rfl
    (fun st' h => congrArg Prod.snd (List.mem_singleton.mp h))
    (RollSeqP.step () (fun _ => 0) trivial
      ⟨[], 0, List.Perm.nil, rfl⟩ (RollSeqP.nil _))
    [] (by simp)

end Engine

/-- Replace the element at index `i` of a list by applying `f`; out-of-range
indices leave the list unchanged.  This models the Rust `Vec` index-and-mutate
pattern `v[i].field op= x`; an out-of-range index is a precondition violation
in the source (content is validated at load time), modelled here as a no-op. -/
def modifyIdx {α : Type} : List α → Nat → (α → α) → List α
  | [], _, _ => []
  | a :: l, 0, f => f a :: l
  | a :: l, i + 1, f => a :: modifyIdx l i f

namespace Hes

/-- Output categories (`kinds::Output`). Modelled from the spec: the kinds
module is not among the provided sources; the spec only requires
"output … maps keyed by enumerated categories". -/
inductive Output where
  | Fuel | Electricity | PlantCalories | AnimalCalories
deriving DecidableEq

/-- Resource categories (`kinds::Resource`). Modelled from the spec, as for
`Output`. -/
inductive Resource where
  | Land | Water | Fuel | Electricity
deriving DecidableEq

/-- Byproduct categories (`kinds::Byproduct`). Modelled from the spec; `co2`
and `biodiversity` members are required by `Effect::apply`. -/
inductive Byproduct where
  | Co2 | Ch4 | N2o | Biodiversity
deriving DecidableEq

/-- Feedstock categories (`kinds::Feedstock`). Modelled from the spec. -/
inductive Feedstock where
  | Coal | Oil | NaturalGas | Uranium | Soil | Other
deriving DecidableEq

/-- Process features (`production::ProcessFeature`). Modelled from the spec:
only membership tests (`p.features.contains(feat)`) occur in the sources. -/
inductive ProcessFeature where
  | UsesOil | IsIntermittent | IsNuclear | IsSolar | IsCombustion | UsesLivestock
deriving DecidableEq

/-- Region latitude bands (`regions::Latitude`). Modelled from the spec: only
equality tests occur in the sources. -/
inductive Latitude where
  | Tropic | Subtropic | Temperate | Frigid
deriving DecidableEq

/-- A map keyed by `Output` (the `OutputMap` of `kinds`), embedded as a record
with one field per category. -/
structure OutputMap (α : Type) where
  fuel : α
  electricity : α
  plantCalories : α
  animalCalories : α
deriving DecidableEq

/-- Read the entry of an output map. -/
def OutputMap.get {α : Type} (m : OutputMap α) : Output → α
  | Output.Fuel => m.fuel
  | Output.Electricity => m.electricity
  | Output.PlantCalories => m.plantCalories
  | Output.AnimalCalories => m.animalCalories

/-- Update the entry of an output map by applying `f`. -/
def OutputMap.modify {α : Type} (m : OutputMap α) (o : Output) (f : α → α) :
    OutputMap α :=
  match o with
  | Output.Fuel => { m with fuel := f m.fuel }
  | Output.Electricity => { m with electricity := f m.electricity }
  | Output.PlantCalories => { m with plantCalories := f m.plantCalories }
  | Output.AnimalCalories => { m with animalCalories := f m.animalCalories }

/-- A map keyed by `Resource`, embedded as a record. -/
structure ResourceMap (α : Type) where
  land : α
  water : α
  fuel : α
  electricity : α
deriving DecidableEq

/-- Read the entry of a resource map. -/
def ResourceMap.get {α : Type} (m : ResourceMap α) : Resource → α
  | Resource.Land => m.land
  | Resource.Water => m.water
  | Resource.Fuel => m.fuel
  | Resource.Electricity => m.electricity

/-- Update the entry of a resource map by applying `f`. -/
def ResourceMap.modify {α : Type} (m : ResourceMap α) (r : Resource)
    (f : α → α) : ResourceMap α :=
  match r with
  | Resource.Land => { m with land := f m.land }
  | Resource.Water => { m with water := f m.water }
  | Resource.Fuel => { m with fuel := f m.fuel }
  | Resource.Electricity => { m with electricity := f m.electricity }

/-- A map keyed by `Byproduct`, embedded as a record. -/
structure ByproductMap (α : Type) where
  co2 : α
  ch4 : α
  n2o : α
  biodiversity : α
deriving DecidableEq

/-- Read the entry of a byproduct map. -/
def ByproductMap.get {α : Type} (m : ByproductMap α) : Byproduct → α
  | Byproduct.Co2 => m.co2
  | Byproduct.Ch4 => m.ch4
  | Byproduct.N2o => m.n2o
  | Byproduct.Biodiversity => m.biodiversity

/-- Update the entry of a byproduct map by applying `f`. -/
def ByproductMap.modify {α : Type} (m : ByproductMap α) (b : Byproduct)
    (f : α → α) : ByproductMap α :=
  match b with
  | Byproduct.Co2 => { m with co2 := f m.co2 }
  | Byproduct.Ch4 => { m with ch4 := f m.ch4 }
  | Byproduct.N2o => { m with n2o := f m.n2o }
  | Byproduct.Biodiversity => { m with biodiversity := f m.biodiversity }

/-- A map keyed by `Feedstock`, embedded as a record. -/
structure FeedstockMap (α : Type) where
  coal : α
  oil : α
  naturalGas : α
  uranium : α
  soil : α
  other : α
deriving DecidableEq

/-- Read the entry of a feedstock map. -/
def FeedstockMap.get {α : Type} (m : FeedstockMap α) : Feedstock → α
  | Feedstock.Coal => m.coal
  | Feedstock.Oil => m.oil
  | Feedstock.NaturalGas => m.naturalGas
  | Feedstock.Uranium => m.uranium
  | Feedstock.Soil => m.soil
  | Feedstock.Other => m.other

/-- Update the entry of a feedstock map by applying `f`. -/
def FeedstockMap.modify {α : Type} (m : FeedstockMap α) (fs : Feedstock)
    (f : α → α) : FeedstockMap α :=
  match fs with
  | Feedstock.Coal => { m with coal := f m.coal }
  | Feedstock.Oil => { m with oil := f m.oil }
  | Feedstock.NaturalGas => { m with naturalGas := f m.naturalGas }
  | Feedstock.Uranium => { m with uranium := f m.uranium }
  | Feedstock.Soil => { m with soil := f m.soil }
  | Feedstock.Other => { m with other := f m.other }

/-- Global boolean modifiers
(src/hes-engine/src/events/effects.rs lines 21-46). -/
inductive Flag where
  | RepeatTutorial | SkipTutorial | Electrified | Vegetarian | Vegan
  | ClosedBorders | HyperResearch | StopDevelopment | FastDevelopment
  | Degrowth | MetalsShortage | DeepSeaMining | ParliamentSuspended
  | MoreLabor | MoreAutomation | MoreLeisure | EcosystemModeling
  | LaborResistance | LaborSabotage | AlienEncounter | BailedOut
deriving DecidableEq

/-- Request kinds (src/hes-engine/src/events/effects.rs lines 15-19). -/
inductive Request where
  | Project | Process
deriving DecidableEq

/-- World-level named variables.  The member list is exactly the set of arms
of the exhaustive `WorldVariable` matches in `Effect::apply`/`unapply`
(src/hes-engine/src/events/effects.rs lines 205-245 and 502-541). -/
inductive WorldVariable where
  | Year | Population | PopulationGrowth | Emissions | ExtinctionRate
  | Outlook | Temperature | WaterStress | SeaLevelRise | SeaLevelRiseRate
  | Precipitation
deriving DecidableEq

/-- Player-level named variables.  `PoliticalCapital` and `ResearchPoints`
appear in `Effect::apply`/`unapply`; the match there ends in a catch-all arm,
so the source enum has further members — `OtherPlayerVar` stands for those
(they are ignored by apply/unapply). -/
inductive PlayerVariable where
  | PoliticalCapital | ResearchPoints | OtherPlayerVar
deriving DecidableEq

/-- The effect algebra
(src/hes-engine/src/events/effects.rs lines 79-137): a closed sum of atomic
state mutations.  `f32` payloads are embedded as `ℚ`, `usize` identifiers as
`Nat`. -/
inductive Effect where
  | WorldVariable : WorldVariable → ℚ → Effect
  | PlayerVariable : PlayerVariable → ℚ → Effect
  | RegionHabitability : Latitude → ℚ → Effect
  | Resource : Resource → ℚ → Effect
  | Demand : Output → ℚ → Effect
  | Output : Output → ℚ → Effect
  | DemandAmount : Output → ℚ → Effect
  | OutputForFeature : ProcessFeature → ℚ → Effect
  | OutputForProcess : Nat → ℚ → Effect
  | CO2ForFeature : ProcessFeature → ℚ → Effect
  | BiodiversityPressureForFeature : ProcessFeature → ℚ → Effect
  | ProcessLimit : Nat → ℚ → Effect
  | Feedstock : Feedstock → ℚ → Effect
  | AddEvent : Nat → Effect
  | TriggerEvent : Nat → Nat → Effect
  | LocksProject : Nat → Effect
  | UnlocksProject : Nat → Effect
  | UnlocksProcess : Nat → Effect
  | UnlocksNPC : Nat → Effect
  | ProjectRequest : Nat → Bool → Nat → Effect
  | ProcessRequest : Nat → Bool → Nat → Effect
  | Migration : Effect
  | RegionLeave : Effect
  | TerminationShock : Effect
  | AddRegionFlag : String → Effect
  | AddFlag : Flag → Effect
  | AutoClick : Nat → ℚ → Effect
  | NPCRelationship : Nat → ℚ → Effect
  | ModifyProcessByproducts : Nat → Byproduct → ℚ → Effect
  | ModifyIndustryByproducts : Nat → Byproduct → ℚ → Effect
  | ModifyIndustryResources : Nat → Resource → ℚ → Effect
  | ModifyIndustryResourcesAmount : Nat → Resource → ℚ → Effect
  | ModifyEventProbability : Nat → ℚ → Effect
  | ModifyIndustryDemand : Nat → ℚ → Effect
  | DemandOutlookChange : Output → ℚ → Effect
  | IncomeOutlookChange : ℚ → Effect
  | ProjectCostModifier : Nat → ℚ → Effect
  | ProtectLand : ℚ → Effect
  | BailOut : Nat → Effect
  | GameOver : Effect
deriving DecidableEq

/-- Qualitative likelihood classes of a `Probability`.  Modelled from the
spec: only `Guaranteed` appears in the provided sources (projects.rs tests). -/
inductive Likelihood where
  | Impossible | Improbable | Rare | Unlikely | Random | Likely | Guaranteed
deriving DecidableEq

/-- Comparison operators of a `Condition`.  Modelled from the spec
("comparator + operand against a named state variable"); only `Equal` appears
in the provided sources (projects.rs tests). -/
inductive Comparator where
  | Less | LessEqual | Equal | NotEqual | GreaterEqual | Greater
deriving DecidableEq

/-- Evaluate a comparator on two rational values. -/
def Comparator.eval (c : Comparator) (a b : ℚ) : Bool :=
  match c with
  | Comparator.Less => decide (a < b)
  | Comparator.LessEqual => decide (a ≤ b)
  | Comparator.Equal => decide (a = b)
  | Comparator.NotEqual => decide (a ≠ b)
  | Comparator.GreaterEqual => decide (b ≤ a)
  | Comparator.Greater => decide (b < a)

/-- A boolean predicate over world state.  Modelled from the spec: the
condition module is not among the provided sources; the spec describes "a
predicate tree (comparator + operand against a named state variable)", and
the provided test exercises the world-variable form
`Condition::WorldVariable(WorldVariable::Year, Comparator::Equal, 10.)`. -/
inductive Condition where
  | WorldVariable : WorldVariable → Comparator → ℚ → Condition
deriving DecidableEq

/-- A trigger likelihood: a likelihood class gated by conditions
(spec section 3; fields as used by the projects.rs tests). -/
structure Probability where
  likelihood : Likelihood
  conditions : List Condition
deriving DecidableEq

/-- Project status (src/hes-engine/src/projects.rs lines 29-37). -/
inductive Status where
  | Inactive | Building | Active | Halted | Stalled | Finished
deriving DecidableEq

/-- Project group (src/hes-engine/src/projects.rs lines 52-71). -/
inductive Group where
  | Other | Space | Nuclear | Restoration | Agriculture | Food
  | Geoengineering | Population | Control | Protection | Electrification
  | Behavior | Limits | Energy | Materials | Buildings | Cities
deriving DecidableEq

/-- Project kind (src/hes-engine/src/projects.rs lines 86-91; the source enum
is named `Type`, which Lean reserves). -/
inductive ProjectType where
  | Policy | Research | Initiative
deriving DecidableEq

/-- Cost basis factor (src/hes-engine/src/projects.rs lines 120-124). -/
inductive Factor where
  | Time : Factor
  | Income : Factor
  | Output : Output → Factor
deriving DecidableEq

/-- Project cost model (src/hes-engine/src/projects.rs lines 93-97). -/
inductive Cost where
  | Fixed : Nat → Cost
  | Dynamic : ℚ → Factor → Cost
deriving DecidableEq

/-- A branching outcome of a project
(src/hes-engine/src/projects.rs lines 138-142). -/
structure Outcome where
  effects : List Effect
  probability : Probability
deriving DecidableEq

/-- A project upgrade (src/hes-engine/src/projects.rs lines 147-151). -/
structure Upgrade where
  cost : Nat
  effects : List Effect
  active : Bool
deriving DecidableEq

/-- A project (src/hes-engine/src/projects.rs lines 153-184).  `Id` is
embedded as `String` (the tests use string literals); the UI-only `flavor`
field is omitted.  `progress` is a `f32` in `[0, ∞)` fed by
`1 / years_for_points`, which can be `+∞`-valued division, so it is embedded
as `ℝ≥0∞`. -/
structure Project where
  id : String
  name : String
  kind : ProjectType
  group : Group
  ongoing : Bool
  gradual : Bool
  locked : Bool
  cost : Nat
  base_cost : Cost
  cost_modifier : ℚ
  progress : ENNReal
  points : Nat
  estimate : Nat
  status : Status
  level : Nat
  completed_at : Nat
  required_majority : ℚ
  effects : List Effect
  outcomes : List Outcome
  upgrades : List Upgrade
  active_outcome : Option Nat
  supporters : List String
  opposers : List String

/-- NPC relation classes (hes-engine `npcs::NPCRelation`; only `Ally` is
referenced by the provided sources). -/
inductive NPCRelation where
  | Nemesis | Neutral | Ally
deriving DecidableEq

/-- An NPC.  Only the fields read or written by the provided sources are
embedded: `locked` (`Effect::UnlocksNPC`), `relationship`
(`Effect::NPCRelationship`) and the name used by `State::is_ally`. -/
structure NPC where
  name : String
  locked : Bool
  relationship : ℚ
deriving DecidableEq

/-- Modelled from the spec: `NPC::relation` derives the relation class from
the `relationship` value (the npcs module is not among the provided sources;
the thresholds are unspecified, a relationship of `5` or more making an
ally). -/
def NPC.relation (n : NPC) : NPCRelation :=
  if 5 ≤ n.relationship then NPCRelation.Ally
  else if n.relationship ≤ 1 then NPCRelation.Nemesis
  else NPCRelation.Neutral

/-- A region.  Fields mutated by effects come from
src/hes-engine/src/events/effects.rs (`base_habitability`, `population`,
`outlook`, `seceded`, `flags`); `income_level` and `demand_levels` are
modelled from the spec as stored per-region drivers read by
`income_level()`/`demand_level()` (the regions module is not among the
provided sources). -/
structure Region where
  id : Nat
  latitude : Latitude
  base_habitability : ℚ
  population : ℚ
  outlook : ℚ
  seceded : Bool
  flags : List String
  income_level : Nat
  demand_levels : OutputMap Nat
deriving DecidableEq

/-- Modelled from the spec: a region's habitability score, derived from its
base habitability (the regions module is not among the provided sources). -/
def Region.habitability (r : Region) : ℚ := r.base_habitability

/-- Modelled from the spec: a region's demand level for an output given world
output demand, read from the stored per-region driver (the regions module is
not among the provided sources; the level does not depend on any field the
outlook effects mutate). -/
def Region.demand_level (r : Region) (o : Output) (_od : OutputMap ℚ) : Nat :=
  r.demand_levels.get o

/-- A production process.  Only the fields read or written by the provided
sources are embedded. -/
structure Process where
  features : List ProcessFeature
  output_modifier : ℚ
  byproduct_modifiers : ByproductMap ℚ
  limit : Option ℚ
  locked : Bool
deriving DecidableEq

/-- An industry.  Only the fields written by the provided sources are
embedded. -/
structure Industry where
  byproduct_modifiers : ByproductMap ℚ
  resource_modifiers : ResourceMap ℚ
  resources : ResourceMap ℚ
  demand_modifier : ℚ
deriving DecidableEq

/-- An event of the hes-engine event pool.  Only the fields written by the
provided sources are embedded (`Effect::AddEvent` clears `locked`,
`Effect::ModifyEventProbability` shifts `prob_modifier`). -/
structure Event where
  locked : Bool
  prob_modifier : ℚ
deriving DecidableEq

/-- The hes-engine event pool: events plus the queue fed by
`queue_event`. -/
structure EventPool where
  events : List Event
  queue : List (Nat × Option Nat × Nat)
deriving DecidableEq

/-- Modelled from the spec: `EventPool::queue_event(id, region_id, years)`
enqueues an event to fire `years` turns out (the hes-engine events module is
not among the provided sources). -/
def EventPool.queue_event (ep : EventPool) (id : Nat) (region_id : Option Nat)
    (years : Nat) : EventPool :=
  { ep with queue := ep.queue ++ [(id, region_id, years)] }

/-- The world aggregate.  Fields are those read or written by the provided
sources; `population` and `change_population` are modelled from the spec
("change a named world variable by X"). -/
structure World where
  year : Nat
  population : ℚ
  base_outlook : ℚ
  sea_level_rise : ℚ
  output_demand : OutputMap ℚ
  regions : List Region
  processes : List Process
  projects : List Project
  industries : List Industry

/-- Modelled from the spec: `World::change_population` shifts the world
population by the given amount. -/
def World.change_population (w : World) (change : ℚ) : World :=
  { w with population := w.population + change }

/-- Modelled from the spec: the mean regional habitability, used by the
`Migration` effect to pick target regions. -/
def World.habitability (w : World) : ℚ :=
  (w.regions.map Region.habitability).sum / (w.regions.length : ℚ)

/-- The game state.  Fields are those read or written by the provided
sources (src/hes-engine/src/events/effects.rs). -/
structure State where
  world : World
  political_capital : Int
  research_points : Int
  population_growth_modifier : ℚ
  temperature_modifier : ℚ
  sea_level_rise_modifier : ℚ
  water_stress : ℚ
  precipitation : ℚ
  co2_emissions : ℚ
  byproduct_mods : ByproductMap ℚ
  resources : ResourceMap ℚ
  feedstocks : FeedstockMap ℚ
  output_demand_modifier : OutputMap ℚ
  output_demand_extras : OutputMap ℚ
  output_modifier : OutputMap ℚ
  protected_land : ℚ
  flags : List Flag
  requests : List (Request × Nat × Bool × Nat)
  event_pool : EventPool
  npcs : List NPC
  game_over : Bool

/-- Modelled from the spec: `State::is_ally(name)` — whether the named NPC is
an ally (the state module is not among the provided sources). -/
def State.is_ally (s : State) (name : String) : Bool :=
  s.npcs.any fun n => n.name = name && n.relation = NPCRelation.Ally

/-- Modelled from the spec: the world's outlook score — the base outlook plus
the mean regional outlook (the state module is not among the provided
sources; `DemandOutlookChange`/`IncomeOutlookChange` move it through the
regional outlooks, `WorldVariable::Outlook` through the base outlook). -/
def State.outlook (s : State) : ℚ :=
  s.world.base_outlook +
    (s.world.regions.map Region.outlook).sum / (s.world.regions.length : ℚ)

/-- The guarded game-over invariant check
(src/hes-engine/src/events/effects.rs lines 144-150). -/
def check_game_over (s : State) : State :=
  if ¬ s.is_ally "The Authoritarian" = true ∧ s.outlook < 0 then
    { s with game_over := true }
  else s

/-- Rust `f32 as usize`: truncate toward zero and clamp below at zero. -/
def ratToUsize (q : ℚ) : Nat := (⌊q⌋).toNat

/-- Rust `f32 as isize`: truncate toward zero. -/
def ratToIsize (q : ℚ) : Int := if 0 ≤ q then ⌊q⌋ else ⌈q⌉

/-- Fraction of a region's population leaving in a migration wave
(src/hes-engine/src/events/effects.rs line 12). -/
def MIGRATION_WAVE_PERCENT_POP : ℚ := 1 / 10

/-- Migration reduction under closed borders
(src/hes-engine/src/events/effects.rs line 13). -/
def CLOSED_BORDERS_MULTILPIER : ℚ := 1 / 2

/-- The effects at the project's current level
(src/hes-engine/src/projects.rs lines 319-325): the base effects at level 0,
else the effects of the upgrade below the current level.  The source indexes
`upgrades[level - 1]` unconditionally (out of range is a precondition
violation); that is modelled as the empty list. -/
def Project.active_effects (p : Project) : List Effect :=
  if p.level = 0 then p.effects
  else
    match p.upgrades.get? (p.level - 1) with
    | some u => u.effects
    | none => []

/-- Remove the first occurrence of `a` in a list, if any: the Rust
`position(..)` + `remove(idx)` pattern used by `unapply` for `AddFlag`. -/
def removeFirst {α : Type} [DecidableEq α] : List α → α → List α
  | [], _ => []
  | x :: xs, a => if x = a then xs else x :: removeFirst xs a

/-- `Effect::apply`
(src/hes-engine/src/events/effects.rs lines 190-494): performs the described
mutation on the state, given an optional region context.  Out-of-range
identifier indexing — a precondition violation in the source — is modelled as
a no-op (cf. `modifyIdx`); arms not listed in the source match
(`AutoClick`, `TerminationShock`, …) fall through to the identity. -/
def Effect.apply (e : Effect) (s : State) (region_id : Option Nat) : State :=
  match e with
  | Effect.GameOver => { s with game_over := true }
  | Effect.BailOut amount =>
    let s :=
      if s.political_capital < 0 then { s with political_capital := 0 } else s
    { s with political_capital := s.political_capital + (amount : Int) }
  | Effect.WorldVariable var change =>
    match var with
    | WorldVariable.Year =>
      { s with world := { s.world with
          year := s.world.year + ratToUsize change } }
    | WorldVariable.Population =>
      { s with world := s.world.change_population change }
    | WorldVariable.PopulationGrowth =>
      { s with population_growth_modifier :=
          s.population_growth_modifier + change / 100 }
    | WorldVariable.Emissions =>
      { s with
          byproduct_mods := { s.byproduct_mods with
            co2 := s.byproduct_mods.co2 + change * 1000000000000000 },
          co2_emissions := s.co2_emissions + change * 1000000000000000 }
    | WorldVariable.ExtinctionRate =>
      { s with byproduct_mods := { s.byproduct_mods with
          biodiversity := s.byproduct_mods.biodiversity - change } }
    | WorldVariable.Outlook =>
      check_game_over { s with world := { s.world with
          base_outlook := s.world.base_outlook + change } }
    | WorldVariable.Temperature =>
      { s with temperature_modifier := s.temperature_modifier + change }
    | WorldVariable.WaterStress =>
      { s with water_stress := s.water_stress + change }
    | WorldVariable.SeaLevelRise =>
      { s with world := { s.world with
          sea_level_rise := s.world.sea_level_rise + change } }
    | WorldVariable.SeaLevelRiseRate =>
      { s with sea_level_rise_modifier :=
          s.sea_level_rise_modifier + change }
    | WorldVariable.Precipitation =>
      { s with precipitation := s.precipitation + change }
  | Effect.PlayerVariable var change =>
    match var with
    | PlayerVariable.PoliticalCapital =>
      { s with political_capital :=
          s.political_capital + ratToIsize change }
    | PlayerVariable.ResearchPoints =>
      { s with research_points := s.research_points + ratToIsize change }
    | _ => s
  | Effect.RegionHabitability latitude change =>
    { s with world := { s.world with
        regions := s.world.regions.map fun r =>
          if r.latitude = latitude then
            { r with base_habitability := r.base_habitability + change }
          else r } }
  | Effect.Resource resource amount =>
    { s with resources := s.resources.modify resource (· + amount) }
  | Effect.Demand output pct_change =>
    { s with output_demand_modifier :=
        s.output_demand_modifier.modify output (· + pct_change) }
  | Effect.DemandAmount output amount =>
    { s with output_demand_extras :=
        s.output_demand_extras.modify output (· + amount) }
  | Effect.Output output pct_change =>
    { s with output_modifier :=
        s.output_modifier.modify output (· + pct_change) }
  | Effect.OutputForFeature feat pct_change =>
    { s with world := { s.world with
        processes := s.world.processes.map fun p =>
          if feat ∈ p.features then
            { p with output_modifier := p.output_modifier + pct_change }
          else p } }
  | Effect.OutputForProcess id pct_change =>
    { s with world := { s.world with
        processes := modifyIdx s.world.processes id fun p =>
          { p with output_modifier := p.output_modifier + pct_change } } }
  | Effect.CO2ForFeature feat pct_change =>
    { s with world := { s.world with
        processes := s.world.processes.map fun p =>
          if feat ∈ p.features then
            { p with byproduct_modifiers := { p.byproduct_modifiers with
                co2 := p.byproduct_modifiers.co2 + pct_change } }
          else p } }
  | Effect.BiodiversityPressureForFeature feat pct_change =>
    { s with world := { s.world with
        processes := s.world.processes.map fun p =>
          if feat ∈ p.features then
            { p with byproduct_modifiers := { p.byproduct_modifiers with
                biodiversity :=
                  p.byproduct_modifiers.biodiversity + pct_change } }
          else p } }
  | Effect.ProcessLimit id change =>
    { s with world := { s.world with
        processes := modifyIdx s.world.processes id fun p =>
          match p.limit with
          | some limit => { p with limit := some (limit + change) }
          | none => p } }
  | Effect.Feedstock feedstock pct_change =>
    { s with feedstocks :=
        s.feedstocks.modify feedstock (· * (1 + pct_change)) }
  | Effect.AddEvent id =>
    { s with event_pool := { s.event_pool with
        events := modifyIdx s.event_pool.events id fun ev =>
          { ev with locked := false } } }
  | Effect.TriggerEvent id years =>
    { s with event_pool := s.event_pool.queue_event id region_id years }
  | Effect.LocksProject id =>
    { s with world := { s.world with
        projects := modifyIdx s.world.projects id fun p =>
          { p with locked := true } } }
  | Effect.UnlocksProject id =>
    { s with world := { s.world with
        projects := modifyIdx s.world.projects id fun p =>
          { p with locked := false } } }
  | Effect.UnlocksProcess id =>
    { s with world := { s.world with
        processes := modifyIdx s.world.processes id fun p =>
          { p with locked := false } } }
  | Effect.UnlocksNPC id =>
    { s with npcs := modifyIdx s.npcs id fun n => { n with locked := false } }
  | Effect.ProjectRequest id active bounty =>
    { s with requests := s.requests ++ [(Request.Project, id, active, bounty)] }
  | Effect.ProcessRequest id active bounty =>
    { s with requests := s.requests ++ [(Request.Process, id, active, bounty)] }
  | Effect.Migration =>
    match region_id with
    | none => s
    | some id =>
      match s.world.regions.get? id with
      | none => s
      | some region =>
        let modifier :=
          if Flag.ClosedBorders ∈ s.flags then CLOSED_BORDERS_MULTILPIER
          else 1
        let leave_pop := region.population * MIGRATION_WAVE_PERCENT_POP *
          modifier
        let regions1 := modifyIdx s.world.regions id fun r =>
          { r with population := r.population - leave_pop }
        let world1 := { s.world with regions := regions1 }
        let mean_habitability := world1.habitability
        let isTarget : Region → Bool := fun r =>
          decide (r.id ≠ id) && decide (mean_habitability < r.habitability)
        let per_region :=
          leave_pop / ((regions1.filter isTarget).length : ℚ)
        { s with world := { world1 with
            regions := regions1.map fun r =>
              if isTarget r then
                { r with population := r.population + per_region }
              else r } }
  | Effect.RegionLeave =>
    match region_id with
    | none => s
    | some id =>
      { s with world := { s.world with
          regions := modifyIdx s.world.regions id fun r =>
            { r with seceded := true } } }
  | Effect.AddRegionFlag flag =>
    match region_id with
    | none => s
    | some id =>
      { s with world := { s.world with
          regions := modifyIdx s.world.regions id fun r =>
            { r with flags := r.flags ++ [flag] } } }
  | Effect.AddFlag flag => { s with flags := s.flags ++ [flag] }
  | Effect.NPCRelationship id change =>
    { s with npcs := modifyIdx s.npcs id fun n =>
        { n with relationship := n.relationship + change } }
  | Effect.ModifyProcessByproducts id byproduct change =>
    { s with world := { s.world with
        processes := modifyIdx s.world.processes id fun p =>
          { p with byproduct_modifiers :=
              p.byproduct_modifiers.modify byproduct (· + change) } } }
  | Effect.ModifyIndustryByproducts id byproduct change =>
    { s with world := { s.world with
        industries := modifyIdx s.world.industries id fun ind =>
          { ind with byproduct_modifiers :=
              ind.byproduct_modifiers.modify byproduct (· + change) } } }
  | Effect.ModifyIndustryResources id resource change =>
    { s with world := { s.world with
        industries := modifyIdx s.world.industries id fun ind =>
          { ind with resource_modifiers :=
              ind.resource_modifiers.modify resource (· + change) } } }
  | Effect.ModifyIndustryResourcesAmount id resource change =>
    { s with world := { s.world with
        industries := modifyIdx s.world.industries id fun ind =>
          { ind with resources :=
              ind.resources.modify resource (· + change) } } }
  | Effect.ModifyEventProbability id change =>
    { s with event_pool := { s.event_pool with
        events := modifyIdx s.event_pool.events id fun ev =>
          { ev with prob_modifier := ev.prob_modifier + change } } }
  | Effect.ModifyIndustryDemand id change =>
    { s with world := { s.world with
        industries := modifyIdx s.world.industries id fun ind =>
          { ind with demand_modifier := ind.demand_modifier + change } } }
  | Effect.DemandOutlookChange output mult =>
    check_game_over { s with world := { s.world with
        regions := s.world.regions.map fun r =>
          { r with outlook := r.outlook +
              (⌊mult * (r.demand_level output s.world.output_demand : ℚ)⌋ :
                ℚ) } } }
  | Effect.IncomeOutlookChange mult =>
    check_game_over { s with world := { s.world with
        regions := s.world.regions.map fun r =>
          { r with outlook := r.outlook +
              (⌊mult * (r.income_level : ℚ)⌋ : ℚ) } } }
  | Effect.ProjectCostModifier id change =>
    { s with world := { s.world with
        projects := modifyIdx s.world.projects id fun p =>
          { p with cost_modifier := p.cost_modifier + change } } }
  | Effect.ProtectLand percent =>
    { s with protected_land := s.protected_land + percent / 100 }
  | _ => s

/-- `Effect::unapply`
(src/hes-engine/src/events/effects.rs lines 496-739): the inverse mutation
for reversible variants; variants not listed in the source match fall through
to the identity ("Other effects aren't reversible").  Note that no arm of
`unapply` re-runs `check_game_over` or resets `game_over`. -/
def Effect.unapply (e : Effect) (s : State) (_region_id : Option Nat) :
    State :=
  match e with
  | Effect.WorldVariable var change =>
    match var with
    | WorldVariable.Year =>
      { s with world := { s.world with
          year := s.world.year - ratToUsize change } }
    | WorldVariable.Population =>
      { s with world := s.world.change_population (-change) }
    | WorldVariable.PopulationGrowth =>
      { s with population_growth_modifier :=
          s.population_growth_modifier - change / 100 }
    | WorldVariable.Emissions =>
      { s with
          byproduct_mods := { s.byproduct_mods with
            co2 := s.byproduct_mods.co2 - change * 1000000000000000 },
          co2_emissions := s.co2_emissions - change * 1000000000000000 }
    | WorldVariable.ExtinctionRate =>
      { s with byproduct_mods := { s.byproduct_mods with
          biodiversity := s.byproduct_mods.biodiversity + change } }
    | WorldVariable.Outlook =>
      { s with world := { s.world with
          base_outlook := s.world.base_outlook - change } }
    | WorldVariable.Temperature =>
      { s with temperature_modifier := s.temperature_modifier - change }
    | WorldVariable.WaterStress =>
      { s with water_stress := s.water_stress - change }
    | WorldVariable.SeaLevelRise =>
      { s with world := { s.world with
          sea_level_rise := s.world.sea_level_rise - change } }
    | WorldVariable.SeaLevelRiseRate =>
      { s with sea_level_rise_modifier :=
          s.sea_level_rise_modifier - change }
    | WorldVariable.Precipitation =>
      { s with precipitation := s.precipitation - change }
  | Effect.PlayerVariable var change =>
    match var with
    | PlayerVariable.PoliticalCapital =>
      { s with political_capital :=
          s.political_capital - ratToIsize change }
    | PlayerVariable.ResearchPoints =>
      { s with research_points := s.research_points - ratToIsize change }
    | _ => s
  | Effect.RegionHabitability latitude change =>
    { s with world := { s.world with
        regions := s.world.regions.map fun r =>
          if r.latitude = latitude then
            { r with base_habitability := r.base_habitability - change }
          else r } }
  | Effect.Resource resource amount =>
    { s with resources := s.resources.modify resource (· - amount) }
  | Effect.Demand output pct_change =>
    { s with output_demand_modifier :=
        s.output_demand_modifier.modify output (· - pct_change) }
  | Effect.DemandAmount output amount =>
    { s with output_demand_extras :=
        s.output_demand_extras.modify output (· - amount) }
  | Effect.Output output pct_change =>
    { s with output_modifier :=
        s.output_modifier.modify output (· - pct_change) }
  | Effect.OutputForFeature feat pct_change =>
    { s with world := { s.world with
        processes := s.world.processes.map fun p =>
          if feat ∈ p.features then
            { p with output_modifier := p.output_modifier - pct_change }
          else p } }
  | Effect.OutputForProcess id pct_change =>
    { s with world := { s.world with
        processes := modifyIdx s.world.processes id fun p =>
          { p with output_modifier := p.output_modifier - pct_change } } }
  | Effect.CO2ForFeature feat pct_change =>
    { s with world := { s.world with
        processes := s.world.processes.map fun p =>
          if feat ∈ p.features then
            { p with byproduct_modifiers := { p.byproduct_modifiers with
                co2 := p.byproduct_modifiers.co2 - pct_change } }
          else p } }
  | Effect.BiodiversityPressureForFeature feat pct_change =>
    { s with world := { s.world with
        processes := s.world.processes.map fun p =>
          if feat ∈ p.features then
            { p with byproduct_modifiers := { p.byproduct_modifiers with
                biodiversity :=
                  p.byproduct_modifiers.biodiversity - pct_change } }
          else p } }
  | Effect.ProcessLimit id change =>
    { s with world := { s.world with
        processes := modifyIdx s.world.processes id fun p =>
          match p.limit with
          | some limit => { p with limit := some (limit - change) }
          | none => p } }
  | Effect.Feedstock feedstock pct_change =>
    { s with feedstocks :=
        s.feedstocks.modify feedstock (· / (1 + pct_change)) }
  | Effect.NPCRelationship id change =>
    { s with npcs := modifyIdx s.npcs id fun n =>
        { n with relationship := n.relationship - change } }
  | Effect.ModifyProcessByproducts id byproduct change =>
    { s with world := { s.world with
        processes := modifyIdx s.world.processes id fun p =>
          { p with byproduct_modifiers :=
              p.byproduct_modifiers.modify byproduct (· - change) } } }
  | Effect.ModifyIndustryByproducts id byproduct change =>
    { s with world := { s.world with
        industries := modifyIdx s.world.industries id fun ind =>
          { ind with byproduct_modifiers :=
              ind.byproduct_modifiers.modify byproduct (· - change) } } }
  | Effect.ModifyIndustryResources id resource change =>
    { s with world := { s.world with
        industries := modifyIdx s.world.industries id fun ind =>
          { ind with resource_modifiers :=
              ind.resource_modifiers.modify resource (· - change) } } }
  | Effect.ModifyIndustryResourcesAmount id resource change =>
    { s with world := { s.world with
        industries := modifyIdx s.world.industries id fun ind =>
          { ind with resources :=
              ind.resources.modify resource (· - change) } } }
  | Effect.ModifyEventProbability id change =>
    { s with event_pool := { s.event_pool with
        events := modifyIdx s.event_pool.events id fun ev =>
          { ev with prob_modifier := ev.prob_modifier - change } } }
  | Effect.ModifyIndustryDemand id change =>
    { s with world := { s.world with
        industries := modifyIdx s.world.industries id fun ind =>
          { ind with demand_modifier := ind.demand_modifier - change } } }
  | Effect.DemandOutlookChange output mult =>
    { s with world := { s.world with
        regions := s.world.regions.map fun r =>
          { r with outlook := r.outlook -
              (⌊mult * (r.demand_level output s.world.output_demand : ℚ)⌋ :
                ℚ) } } }
  | Effect.IncomeOutlookChange mult =>
    { s with world := { s.world with
        regions := s.world.regions.map fun r =>
          { r with outlook := r.outlook -
              (⌊mult * (r.income_level : ℚ)⌋ : ℚ) } } }
  | Effect.ProjectCostModifier id change =>
    { s with world := { s.world with
        projects := modifyIdx s.world.projects id fun p =>
          { p with cost_modifier := p.cost_modifier - change } } }
  | Effect.TerminationShock =>
    match s.world.projects.find? (fun p =>
        p.name = "Solar Radiation Management") with
    | none => s
    | some p =>
      let temp := (p.active_effects.map fun eff =>
        match eff with
        | Effect.WorldVariable WorldVariable.Temperature val => val
        | _ => 0).sum
      { s with temperature_modifier := s.temperature_modifier - temp }
  | Effect.ProtectLand percent =>
    { s with protected_land := s.protected_land - percent / 100 }
  | Effect.AddFlag flag => { s with flags := removeFirst s.flags flag }
  | Effect.LocksProject id =>
    { s with world := { s.world with
        projects := modifyIdx s.world.projects id fun p =>
          { p with locked := false } } }
  | Effect.UnlocksProject id =>
    { s with world := { s.world with
        projects := modifyIdx s.world.projects id fun p =>
          { p with locked := true } } }
  | Effect.UnlocksProcess id =>
    { s with world := { s.world with
        processes := modifyIdx s.world.processes id fun p =>
          { p with locked := true } } }
  | Effect.UnlocksNPC id =>
    { s with npcs := modifyIdx s.npcs id fun n => { n with locked := true } }
  | _ => s

/-- `impl Mul<f32> for Effect`
(src/hes-engine/src/events/effects.rs lines 743-823): scale an effect's
numeric magnitude; variants not listed in the source match are returned
unchanged.  The `ModifyIndustryResourcesAmount` arm is transcribed exactly as
written in the source: it constructs `ModifyIndustryResources`. -/
def Effect.mul (e : Effect) (rhs : ℚ) : Effect :=
  match e with
  | Effect.WorldVariable var val => Effect.WorldVariable var (val * rhs)
  | Effect.PlayerVariable var val => Effect.PlayerVariable var (val * rhs)
  | Effect.Resource resource val => Effect.Resource resource (val * rhs)
  | Effect.Demand output val => Effect.Demand output (val * rhs)
  | Effect.Output output val => Effect.Output output (val * rhs)
  | Effect.DemandAmount output val => Effect.DemandAmount output (val * rhs)
  | Effect.OutputForFeature feat val =>
    Effect.OutputForFeature feat (val * rhs)
  | Effect.OutputForProcess id val =>
    Effect.OutputForProcess id (val * rhs)
  | Effect.Feedstock feedstock val => Effect.Feedstock feedstock (val * rhs)
  | Effect.ModifyIndustryByproducts id byproduct val =>
    Effect.ModifyIndustryByproducts id byproduct (val * rhs)
  | Effect.ModifyIndustryResources id resource val =>
    Effect.ModifyIndustryResources id resource (val * rhs)
  | Effect.ModifyIndustryResourcesAmount id resource val =>
    Effect.ModifyIndustryResources id resource (val * rhs)
  | Effect.ModifyIndustryDemand id val =>
    Effect.ModifyIndustryDemand id (val * rhs)
  | Effect.ModifyEventProbability id val =>
    Effect.ModifyEventProbability id (val * rhs)
  | Effect.DemandOutlookChange output val =>
    Effect.DemandOutlookChange output (val * rhs)
  | Effect.IncomeOutlookChange val => Effect.IncomeOutlookChange (val * rhs)
  | Effect.ProjectCostModifier id val =>
    Effect.ProjectCostModifier id (val * rhs)
  | Effect.ProtectLand val => Effect.ProtectLand (val * rhs)
  | _ => e

/-- C8 (code bug): scaling is claimed to preserve the variant tag, but the
`ModifyIndustryResourcesAmount` arm of `Mul<f32>` constructs
`ModifyIndustryResources` — scaling by `2` turns an *amount* effect on an
industry's `resources` into a *modifier* effect on its `resource_modifiers`.
Every other arm preserves its variant, so the source arm is a slip and the
claim reflects the intent. -/
theorem claim_c8_bug :
    Effect.mul (Effect.ModifyIndustryResourcesAmount 0 Resource.Water 1) 2 =
      Effect.ModifyIndustryResources 0 Resource.Water 2 ∧
    ∀ val : ℚ,
      Effect.mul (Effect.ModifyIndustryResourcesAmount 0 Resource.Water 1) 2 ≠
        Effect.ModifyIndustryResourcesAmount 0 Resource.Water val := by
  refine ⟨by norm_num [Effect.mul], fun val h => ?_⟩
  rw [show Effect.mul (Effect.ModifyIndustryResourcesAmount 0 Resource.Water 1)
      2 = Effect.ModifyIndustryResources 0 Resource.Water (1 * 2) from rfl]
    at h
  exact Effect.noConfusion h

/-- C10: `Effect::BailOut(amount)` first clamps a negative political capital
to zero and then adds the bailout amount, so the result is
`max(previous, 0) + amount` — a bailout never pays down existing debt. -/
theorem claim_c10_bailout (s : State) (amount : Nat)
    (region_id : Option Nat) :
    ((Effect.BailOut amount).apply s region_id).political_capital =
      max s.political_capital 0 + (amount : Int) := by
  by_cases h : s.political_capital < 0
  · simp only [Effect.apply, if_pos h]
    rw [max_eq_right h.le]
  · simp only [Effect.apply, if_neg h]
    rw [max_eq_left (not_lt.mp h)]

/-! Round-trip cancellation lemmas for the reversible effect arms. -/

/-- Adding then subtracting on one key of an output map is the identity. -/
theorem outputMap_modify_add_sub (m : OutputMap ℚ) (o : Output) (c : ℚ) :
    (m.modify o (· + c)).modify o (· - c) = m := by
  cases m; cases o <;> simp [OutputMap.modify, add_sub_cancel_right]

/-- Adding then subtracting on one key of a resource map is the identity. -/
theorem resourceMap_modify_add_sub (m : ResourceMap ℚ) (r : Resource)
    (c : ℚ) : (m.modify r (· + c)).modify r (· - c) = m := by
  cases m; cases r <;> simp [ResourceMap.modify, add_sub_cancel_right]

/-- Adding then subtracting on one key of a byproduct map is the identity. -/
theorem byproductMap_modify_add_sub (m : ByproductMap ℚ) (b : Byproduct)
    (c : ℚ) : (m.modify b (· + c)).modify b (· - c) = m := by
  cases m; cases b <;> simp [ByproductMap.modify, add_sub_cancel_right]

/-- Multiplying then dividing by `1 + p ≠ 0` on one key of a feedstock map is
the identity (this is the arm the spec documents as an approximate inverse
under `f32`; over `ℚ` it is exact away from `p = -1`). -/
theorem FeedstockMap.modify_mul_div (m : FeedstockMap ℚ) (fs : Feedstock)
    (p : ℚ) (h : 1 + p ≠ 0) :
    (m.modify fs (· * (1 + p))).modify fs (· / (1 + p)) = m := by
  have hc : ∀ a : ℚ, a * (1 + p) / (1 + p) = a := fun a =>
    mul_div_cancel_right₀ a h
  cases m; cases fs <;> simp [FeedstockMap.modify, hc]

/-- Two stacked `modifyIdx` at the same index compose. -/
theorem modifyIdx_comp {α : Type} (l : List α) (i : Nat) (f g : α → α) :
    modifyIdx (modifyIdx l i f) i g = modifyIdx l i (fun x => g (f x)) := by
  induction l generalizing i with
  | nil => rfl
  | cons a l ih =>
    cases i with
    | zero => rfl
    | succ i => simp [modifyIdx, ih]

/-- `modifyIdx` with a function that fixes the element at the index is the
identity. -/
theorem modifyIdx_eq_self {α : Type} (l : List α) (i : Nat) (f : α → α)
    (h : ∀ x, l.get? i = some x → f x = x) : modifyIdx l i f = l := by
  induction l generalizing i with
  | nil => rfl
  | cons a l ih =>
    cases i with
    | zero => simp [modifyIdx, h a rfl]
    | succ i =>
      simp only [modifyIdx, List.cons.injEq, true_and]
      exact ih i (fun x hx => h x hx)

/-- `modifyIdx` round-trips whenever the two functions cancel pointwise. -/
theorem modifyIdx_cancel {α : Type} (l : List α) (i : Nat) (f g : α → α)
    (h : ∀ x, g (f x) = x) :
    modifyIdx (modifyIdx l i f) i g = l := by
  rw [modifyIdx_comp]
  exact modifyIdx_eq_self l i _ (fun x _ => h x)

/-- Round trip of the `RegionHabitability` maps over the region list. -/
theorem regions_habitability_cancel (l : List Region) (lat : Latitude)
    (c : ℚ) :
    ((l.map fun r => if r.latitude = lat then
        { r with base_habitability := r.base_habitability + c } else r).map
      fun r => if r.latitude = lat then
        { r with base_habitability := r.base_habitability - c } else r) =
      l := by
  rw [List.map_map]
  refine List.map_id'' (fun r => ?_) l
  obtain ⟨rid, rlat, rbh, rpop, rout, rsec, rflags, ril, rdl⟩ := r
  by_cases h : rlat = lat <;> simp [Function.comp, h, add_sub_cancel_right]

/-- Round trip of the `OutputForFeature` maps over the process list. -/
theorem processes_feature_output_cancel (l : List Process)
    (feat : ProcessFeature) (c : ℚ) :
    ((l.map fun p => if feat ∈ p.features then
        { p with output_modifier := p.output_modifier + c } else p).map
      fun p => if feat ∈ p.features then
        { p with output_modifier := p.output_modifier - c } else p) = l := by
  rw [List.map_map]
  refine List.map_id'' (fun p => ?_) l
  obtain ⟨pf, pom, pbm, plim, plk⟩ := p
  by_cases h : feat ∈ pf <;> simp [Function.comp, h, add_sub_cancel_right]

/-- Round trip of the `CO2ForFeature` maps over the process list. -/
theorem processes_feature_co2_cancel (l : List Process)
    (feat : ProcessFeature) (c : ℚ) :
    ((l.map fun p => if feat ∈ p.features then
        { p with byproduct_modifiers := { p.byproduct_modifiers with
            co2 := p.byproduct_modifiers.co2 + c } } else p).map
      fun p => if feat ∈ p.features then
        { p with byproduct_modifiers := { p.byproduct_modifiers with
            co2 := p.byproduct_modifiers.co2 - c } } else p) = l := by
  rw [List.map_map]
  refine List.map_id'' (fun p => ?_) l
  obtain ⟨pf, pom, pbm, plim, plk⟩ := p
  cases pbm
  by_cases h : feat ∈ pf <;> simp [Function.comp, h, add_sub_cancel_right]

/-- Round trip of the `BiodiversityPressureForFeature` maps over the process
list. -/
theorem processes_feature_biodiv_cancel (l : List Process)
    (feat : ProcessFeature) (c : ℚ) :
    ((l.map fun p => if feat ∈ p.features then
        { p with byproduct_modifiers := { p.byproduct_modifiers with
            biodiversity := p.byproduct_modifiers.biodiversity + c } }
      else p).map
      fun p => if feat ∈ p.features then
        { p with byproduct_modifiers := { p.byproduct_modifiers with
            biodiversity := p.byproduct_modifiers.biodiversity - c } }
      else p) = l := by
  rw [List.map_map]
  refine List.map_id'' (fun p => ?_) l
  obtain ⟨pf, pom, pbm, plim, plk⟩ := p
  cases pbm
  by_cases h : feat ∈ pf <;> simp [Function.comp, h, add_sub_cancel_right]

/-- Round trip of the `DemandOutlookChange` maps over the region list: the
demand level read in the backward pass is the one stored in the region, which
the forward pass does not touch. -/
theorem regions_demand_outlook_cancel (l : List Region) (output : Output)
    (mult : ℚ) (od : OutputMap ℚ) :
    ((l.map fun r => { r with outlook := r.outlook +
        (⌊mult * (r.demand_level output od : ℚ)⌋ : ℚ) }).map
      fun r => { r with outlook := r.outlook -
        (⌊mult * (r.demand_level output od : ℚ)⌋ : ℚ) }) = l := by
  rw [List.map_map]
  refine List.map_id'' (fun r => ?_) l
  cases r
  simp [Function.comp, Region.demand_level, add_sub_cancel_right]

/-- Round trip of the `IncomeOutlookChange` maps over the region list. -/
theorem regions_income_outlook_cancel (l : List Region) (mult : ℚ) :
    ((l.map fun r => { r with outlook := r.outlook +
        (⌊mult * (r.income_level : ℚ)⌋ : ℚ) }).map
      fun r => { r with outlook := r.outlook -
        (⌊mult * (r.income_level : ℚ)⌋ : ℚ) }) = l := by
  rw [List.map_map]
  refine List.map_id'' (fun r => ?_) l
  cases r
  simp [Function.comp, add_sub_cancel_right]

/-- Removing the just-appended element restores the list when the element was
not already present. -/
theorem removeFirst_append_self {α : Type} [DecidableEq α] (l : List α)
    (a : α) (h : a ∉ l) : removeFirst (l ++ [a]) a = l := by
  induction l with
  | nil => simp [removeFirst]
  | cons x xs ih =>
    have hx : ¬ x = a := fun hxa => h (by simp [hxa])
    rw [List.cons_append]
    simp only [removeFirst, if_neg hx]
    exact congrArg (List.cons x) (ih fun hm => h (List.mem_cons_of_mem _ hm))

/-- Round trip of `OutputForProcess` on the process list. -/
theorem processes_output_modifyIdx_cancel (l : List Process) (i : Nat)
    (c : ℚ) :
    modifyIdx (modifyIdx l i fun p =>
      { p with output_modifier := p.output_modifier + c }) i
      (fun p => { p with output_modifier := p.output_modifier - c }) = l :=
  modifyIdx_cancel _ _ _ _ fun p => by
    cases p; simp [add_sub_cancel_right]

/-- Round trip of `ProcessLimit` on the process list. -/
theorem processes_limit_modifyIdx_cancel (l : List Process) (i : Nat)
    (c : ℚ) :
    modifyIdx (modifyIdx l i fun p =>
      match p.limit with
      | some limit => { p with limit := some (limit + c) }
      | none => p) i
      (fun p =>
        match p.limit with
        | some limit => { p with limit := some (limit - c) }
        | none => p) = l :=
  modifyIdx_cancel _ _ _ _ fun p => by
    obtain ⟨pf, pom, pbm, plim, plk⟩ := p
    cases plim <;> simp [add_sub_cancel_right]

/-- Round trip of `ModifyProcessByproducts` on the process list. -/
theorem processes_byproducts_modifyIdx_cancel (l : List Process) (i : Nat)
    (b : Byproduct) (c : ℚ) :
    modifyIdx (modifyIdx l i fun p =>
      { p with byproduct_modifiers :=
          p.byproduct_modifiers.modify b (· + c) }) i
      (fun p => { p with byproduct_modifiers :=
          p.byproduct_modifiers.modify b (· - c) }) = l :=
  modifyIdx_cancel _ _ _ _ fun p => by
    cases p; simp [byproductMap_modify_add_sub]

/-- Round trip of `ModifyIndustryByproducts` on the industry list. -/
theorem industries_byproducts_modifyIdx_cancel (l : List Industry) (i : Nat)
    (b : Byproduct) (c : ℚ) :
    modifyIdx (modifyIdx l i fun ind =>
      { ind with byproduct_modifiers :=
          ind.byproduct_modifiers.modify b (· + c) }) i
      (fun ind => { ind with byproduct_modifiers :=
          ind.byproduct_modifiers.modify b (· - c) }) = l :=
  modifyIdx_cancel _ _ _ _ fun ind => by
    cases ind; simp [byproductMap_modify_add_sub]

/-- Round trip of `ModifyIndustryResources` on the industry list. -/
theorem industries_resource_modifiers_modifyIdx_cancel (l : List Industry)
    (i : Nat) (r : Resource) (c : ℚ) :
    modifyIdx (modifyIdx l i fun ind =>
      { ind with resource_modifiers :=
          ind.resource_modifiers.modify r (· + c) }) i
      (fun ind => { ind with resource_modifiers :=
          ind.resource_modifiers.modify r (· - c) }) = l :=
  modifyIdx_cancel _ _ _ _ fun ind => by
    cases ind; simp [resourceMap_modify_add_sub]

/-- Round trip of `ModifyIndustryResourcesAmount` on the industry list. -/
theorem industries_resources_modifyIdx_cancel (l : List Industry) (i : Nat)
    (r : Resource) (c : ℚ) :
    modifyIdx (modifyIdx l i fun ind =>
      { ind with resources := ind.resources.modify r (· + c) }) i
      (fun ind => { ind with resources := ind.resources.modify r (· - c) }) =
      l :=
  modifyIdx_cancel _ _ _ _ fun ind => by
    cases ind; simp [resourceMap_modify_add_sub]

/-- Round trip of `ModifyEventProbability` on the pool's event list. -/
theorem events_prob_modifyIdx_cancel (l : List Event) (i : Nat) (c : ℚ) :
    modifyIdx (modifyIdx l i fun ev =>
      { ev with prob_modifier := ev.prob_modifier + c }) i
      (fun ev => { ev with prob_modifier := ev.prob_modifier - c }) = l :=
  modifyIdx_cancel _ _ _ _ fun ev => by
    cases ev; simp [add_sub_cancel_right]

/-- Round trip of `ModifyIndustryDemand` on the industry list. -/
theorem industries_demand_modifyIdx_cancel (l : List Industry) (i : Nat)
    (c : ℚ) :
    modifyIdx (modifyIdx l i fun ind =>
      { ind with demand_modifier := ind.demand_modifier + c }) i
      (fun ind => { ind with demand_modifier := ind.demand_modifier - c }) =
      l :=
  modifyIdx_cancel _ _ _ _ fun ind => by
    cases ind; simp [add_sub_cancel_right]

/-- Round trip of `ProjectCostModifier` on the project list. -/
theorem projects_cost_modifyIdx_cancel (l : List Project) (i : Nat) (c : ℚ) :
    modifyIdx (modifyIdx l i fun p =>
      { p with cost_modifier := p.cost_modifier + c }) i
      (fun p => { p with cost_modifier := p.cost_modifier - c }) = l :=
  modifyIdx_cancel _ _ _ _ fun p => by
    cases p; simp [add_sub_cancel_right]

/-- Round trip of `NPCRelationship` on the NPC list. -/
theorem npcs_relationship_modifyIdx_cancel (l : List NPC) (i : Nat) (c : ℚ) :
    modifyIdx (modifyIdx l i fun n =>
      { n with relationship := n.relationship + c }) i
      (fun n => { n with relationship := n.relationship - c }) = l :=
  modifyIdx_cancel _ _ _ _ fun n => by
    cases n; simp [add_sub_cancel_right]

/-- The state with its derived `game_over` flag cleared: `unapply` never
recomputes `game_over`, so the round-trip invariant is stated modulo this
field. -/
def State.clearGameOver (s : State) : State := { s with game_over := false }

/-- The (effect, state) pairs for which the apply/unapply round trip restores
the state (up to `game_over`).  True exactly on the variants with a
non-trivial `unapply` arm, minus `TerminationShock` (whose `apply` arm is a
no-op while its `unapply` subtracts a temperature contribution), and with the
side conditions forced by the code: a feedstock multiplier `≠ -1` (the
multiplicative inverse divides by `1 + pct_change`), a flag not already
present (`unapply` removes the first occurrence, `apply` appends at the end),
and lock/unlock variants only when the current lock state matches the
direction being applied (their `unapply` writes a constant, not the previous
value). -/
def reversibleOn (e : Effect) (s : State) : Bool :=
  match e with
  | Effect.Feedstock _ pct_change => decide (pct_change ≠ -1)
  | Effect.AddFlag flag => decide (flag ∉ s.flags)
  | Effect.LocksProject id =>
    match s.world.projects.get? id with
    | some p => !p.locked
    | none => true
  | Effect.UnlocksProject id =>
    match s.world.projects.get? id with
    | some p => p.locked
    | none => true
  | Effect.UnlocksProcess id =>
    match s.world.processes.get? id with
    | some p => p.locked
    | none => true
  | Effect.UnlocksNPC id =>
    match s.npcs.get? id with
    | some n => n.locked
    | none => true
  | Effect.WorldVariable _ _ | Effect.PlayerVariable _ _
  | Effect.RegionHabitability _ _ | Effect.Resource _ _
  | Effect.Demand _ _ | Effect.Output _ _ | Effect.DemandAmount _ _
  | Effect.OutputForFeature _ _ | Effect.OutputForProcess _ _
  | Effect.CO2ForFeature _ _ | Effect.BiodiversityPressureForFeature _ _
  | Effect.ProcessLimit _ _ | Effect.NPCRelationship _ _
  | Effect.ModifyProcessByproducts _ _ _
  | Effect.ModifyIndustryByproducts _ _ _
  | Effect.ModifyIndustryResources _ _ _
  | Effect.ModifyIndustryResourcesAmount _ _ _
  | Effect.ModifyEventProbability _ _ | Effect.ModifyIndustryDemand _ _
  | Effect.DemandOutlookChange _ _ | Effect.IncomeOutlookChange _
  | Effect.ProjectCostModifier _ _ | Effect.ProtectLand _ => true
  | _ => false

/-- A minimal concrete state: empty collections, all numeric fields zero,
`game_over` not set. -/
def emptyState : State where
  world :=
    { year := 2024
      population := 0
      base_outlook := 0
      sea_level_rise := 0
      output_demand := ⟨0, 0, 0, 0⟩
      regions := []
      processes := []
      projects := []
      industries := [] }
  political_capital := 0
  research_points := 0
  population_growth_modifier := 0
  temperature_modifier := 0
  sea_level_rise_modifier := 0
  water_stress := 0
  precipitation := 0
  co2_emissions := 0
  byproduct_mods := ⟨0, 0, 0, 0⟩
  resources := ⟨0, 0, 0, 0⟩
  feedstocks := ⟨0, 0, 0, 0, 0, 0⟩
  output_demand_modifier := ⟨0, 0, 0, 0⟩
  output_demand_extras := ⟨0, 0, 0, 0⟩
  output_modifier := ⟨0, 0, 0, 0⟩
  protected_land := 0
  flags := []
  requests := []
  event_pool := ⟨[], []⟩
  npcs := []
  game_over := false

/-- An `Outlook` effect large enough to push the outlook below zero. -/
def outlookDrop : Effect := Effect.WorldVariable WorldVariable.Outlook (-1)

/-- C1 counterexample: applying an `Outlook` effect that pushes the outlook
below zero sets `game_over := true` through the post-mutation
`check_game_over`, and `unapply` — whose `Outlook` arm only restores
`base_outlook` and never recomputes or clears `game_over` — does not restore
the state bit-for-bit: the `game_over` flag stays set. -/
theorem claim_c1_counterexample :
    (outlookDrop.unapply (outlookDrop.apply emptyState none) none).game_over =
      true ∧
    emptyState.game_over = false ∧
    outlookDrop.unapply (outlookDrop.apply emptyState none) none ≠
      emptyState := by
  have h1 : (outlookDrop.unapply (outlookDrop.apply emptyState none)
      none).game_over = true := by
    norm_num [outlookDrop, Effect.apply, Effect.unapply, check_game_over,
      emptyState, State.is_ally, State.outlook]
  refine ⟨h1, rfl, fun hc => ?_⟩
  rw [hc] at h1
  exact Bool.noConfusion h1

/-- C1 (amended): for every effect variant with a non-trivial `unapply` arm
except `TerminationShock`, and under the side conditions recorded in
`reversibleOn` (feedstock multiplier `≠ -1`, flag not already present, lock
state matching the direction), applying then unapplying the effect restores
the state exactly — except for the derived `game_over` flag, which `apply`'s
post-mutation check may set and `unapply` never clears. -/
theorem claim_c1_amended (e : Effect) (s : State) (rid : Option Nat)
    (h : reversibleOn e s = true) :
    (e.unapply (e.apply s rid) rid).clearGameOver = s.clearGameOver := by
  cases e with
  | WorldVariable var change =>
    cases var with
    | Year =>
      simp [Effect.apply, Effect.unapply, State.clearGameOver,
        Nat.add_sub_cancel]
    | Population =>
      simp [Effect.apply, Effect.unapply, State.clearGameOver,
        World.change_population, add_neg_cancel_right]
    | PopulationGrowth =>
      simp [Effect.apply, Effect.unapply, State.clearGameOver,
        add_sub_cancel_right]
    | Emissions =>
      simp [Effect.apply, Effect.unapply, State.clearGameOver,
        add_sub_cancel_right]
    | ExtinctionRate =>
      simp [Effect.apply, Effect.unapply, State.clearGameOver,
        sub_add_cancel]
    | Outlook =>
      simp only [Effect.apply, Effect.unapply, check_game_over]
      split <;>
        simp [State.clearGameOver, add_sub_cancel_right]
    | Temperature =>
      simp [Effect.apply, Effect.unapply, State.clearGameOver,
        add_sub_cancel_right]
    | WaterStress =>
      simp [Effect.apply, Effect.unapply, State.clearGameOver,
        add_sub_cancel_right]
    | SeaLevelRise =>
      simp [Effect.apply, Effect.unapply, State.clearGameOver,
        add_sub_cancel_right]
    | SeaLevelRiseRate =>
      simp [Effect.apply, Effect.unapply, State.clearGameOver,
        add_sub_cancel_right]
    | Precipitation =>
      simp [Effect.apply, Effect.unapply, State.clearGameOver,
        add_sub_cancel_right]
  | PlayerVariable var change =>
    cases var with
    | PoliticalCapital =>
      simp [Effect.apply, Effect.unapply, State.clearGameOver,
        add_sub_cancel_right]
    | ResearchPoints =>
      simp [Effect.apply, Effect.unapply, State.clearGameOver,
        add_sub_cancel_right]
    | OtherPlayerVar => rfl
  | RegionHabitability latitude change =>
    simp only [Effect.apply, Effect.unapply, State.clearGameOver]
    rw [regions_habitability_cancel]
  | Resource resource amount =>
    simp [Effect.apply, Effect.unapply, State.clearGameOver,
      resourceMap_modify_add_sub]
  | Demand output pct_change =>
    simp [Effect.apply, Effect.unapply, State.clearGameOver,
      outputMap_modify_add_sub]
  | DemandAmount output amount =>
    simp [Effect.apply, Effect.unapply, State.clearGameOver,
      outputMap_modify_add_sub]
  | Output output pct_change =>
    simp [Effect.apply, Effect.unapply, State.clearGameOver,
      outputMap_modify_add_sub]
  | OutputForFeature feat pct_change =>
    simp only [Effect.apply, Effect.unapply, State.clearGameOver]
    rw [processes_feature_output_cancel]
  | OutputForProcess id pct_change =>
    simp [Effect.apply, Effect.unapply, State.clearGameOver,
      processes_output_modifyIdx_cancel]
  | CO2ForFeature feat pct_change =>
    simp only [Effect.apply, Effect.unapply, State.clearGameOver]
    rw [processes_feature_co2_cancel]
  | BiodiversityPressureForFeature feat pct_change =>
    simp only [Effect.apply, Effect.unapply, State.clearGameOver]
    rw [processes_feature_biodiv_cancel]
  | ProcessLimit id change =>
    simp [Effect.apply, Effect.unapply, State.clearGameOver,
      processes_limit_modifyIdx_cancel]
  | Feedstock feedstock pct_change =>
    have hp : ¬ pct_change = -1 := by simpa [reversibleOn] using h
    have h1 : 1 + pct_change ≠ 0 := fun h0 => hp (by linarith)
    simp [Effect.apply, Effect.unapply, State.clearGameOver,
      FeedstockMap.modify_mul_div _ _ _ h1]
  | NPCRelationship id change =>
    simp [Effect.apply, Effect.unapply, State.clearGameOver,
      npcs_relationship_modifyIdx_cancel]
  | ModifyProcessByproducts id byproduct change =>
    simp [Effect.apply, Effect.unapply, State.clearGameOver,
      processes_byproducts_modifyIdx_cancel]
  | ModifyIndustryByproducts id byproduct change =>
    simp [Effect.apply, Effect.unapply, State.clearGameOver,
      industries_byproducts_modifyIdx_cancel]
  | ModifyIndustryResources id resource change =>
    simp [Effect.apply, Effect.unapply, State.clearGameOver,
      industries_resource_modifiers_modifyIdx_cancel]
  | ModifyIndustryResourcesAmount id resource change =>
    simp [Effect.apply, Effect.unapply, State.clearGameOver,
      industries_resources_modifyIdx_cancel]
  | ModifyEventProbability id change =>
    simp [Effect.apply, Effect.unapply, State.clearGameOver,
      events_prob_modifyIdx_cancel]
  | ModifyIndustryDemand id change =>
    simp [Effect.apply, Effect.unapply, State.clearGameOver,
      industries_demand_modifyIdx_cancel]
  | DemandOutlookChange output mult =>
    simp only [Effect.apply, Effect.unapply, check_game_over]
    split <;>
      · simp only [State.clearGameOver]
        rw [regions_demand_outlook_cancel]
  | IncomeOutlookChange mult =>
    simp only [Effect.apply, Effect.unapply, check_game_over]
    split <;>
      · simp only [State.clearGameOver]
        rw [regions_income_outlook_cancel]
  | ProjectCostModifier id change =>
    simp [Effect.apply, Effect.unapply, State.clearGameOver,
      projects_cost_modifyIdx_cancel]
  | ProtectLand percent =>
    simp [Effect.apply, Effect.unapply, State.clearGameOver,
      add_sub_cancel_right]
  | AddFlag flag =>
    have hmem : flag ∉ s.flags := by simpa [reversibleOn] using h
    simp [Effect.apply, Effect.unapply, State.clearGameOver,
      removeFirst_append_self _ _ hmem]
  | LocksProject id =>
    simp only [Effect.apply, Effect.unapply, State.clearGameOver]
    have hc : modifyIdx (modifyIdx s.world.projects id fun p =>
        { p with locked := true }) id (fun p => { p with locked := false }) =
        s.world.projects := by
      rw [modifyIdx_comp]
      refine modifyIdx_eq_self _ _ _ (fun p hp => ?_)
      simp only [reversibleOn, hp] at h
      have hl : p.locked = false := by simpa using h
      cases p
      simp_all
    rw [hc]
  | UnlocksProject id =>
    simp only [Effect.apply, Effect.unapply, State.clearGameOver]
    have hc : modifyIdx (modifyIdx s.world.projects id fun p =>
        { p with locked := false }) id (fun p => { p with locked := true }) =
        s.world.projects := by
      rw [modifyIdx_comp]
      refine modifyIdx_eq_self _ _ _ (fun p hp => ?_)
      simp only [reversibleOn, hp] at h
      cases p
      simp_all
    rw [hc]
  | UnlocksProcess id =>
    simp only [Effect.apply, Effect.unapply, State.clearGameOver]
    have hc : modifyIdx (modifyIdx s.world.processes id fun p =>
        { p with locked := false }) id (fun p => { p with locked := true }) =
        s.world.processes := by
      rw [modifyIdx_comp]
      refine modifyIdx_eq_self _ _ _ (fun p hp => ?_)
      simp only [reversibleOn, hp] at h
      cases p
      simp_all
    rw [hc]
  | UnlocksNPC id =>
    simp only [Effect.apply, Effect.unapply, State.clearGameOver]
    have hc : modifyIdx (modifyIdx s.npcs id fun n =>
        { n with locked := false }) id (fun n => { n with locked := true }) =
        s.npcs := by
      rw [modifyIdx_comp]
      refine modifyIdx_eq_self _ _ _ (fun n hn => ?_)
      simp only [reversibleOn, hn] at h
      cases n
      simp_all
    rw [hc]
  | AddEvent id => simp [reversibleOn] at h
  | TriggerEvent id years => simp [reversibleOn] at h
  | ProjectRequest id active bounty => simp [reversibleOn] at h
  | ProcessRequest id active bounty => simp [reversibleOn] at h
  | Migration => simp [reversibleOn] at h
  | RegionLeave => simp [reversibleOn] at h
  | TerminationShock => simp [reversibleOn] at h
  | AddRegionFlag flag => simp [reversibleOn] at h
  | AutoClick id val => simp [reversibleOn] at h
  | BailOut amount => simp [reversibleOn] at h
  | GameOver => simp [reversibleOn] at h

/-- Witness for C1 (amended) on a concrete reversible effect and state: a
`Resource` effect round-trips on `emptyState`. -/
theorem claim_c1_witness :
    reversibleOn (Effect.Resource Resource.Water 2) emptyState = true ∧
    ((Effect.Resource Resource.Water 2).unapply
        ((Effect.Resource Resource.Water 2).apply emptyState none)
        none).clearGameOver = emptyState.clearGameOver :=
  ⟨rfl, claim_c1_amended (Effect.Resource Resource.Water 2) emptyState none
    rfl⟩

/-- `years_for_points(points, cost)`
(src/hes-engine/src/projects.rs lines 204-208):
`(cost as f32 / (points as f32).powf(1. / 2.75)).round().max(1.)`.

The result is embedded in `ℝ≥0∞` to capture the IEEE semantics of the `f32`
division at `points = 0`: `0.powf(e) = 0` for positive `e`, and `cost / 0.0`
is `+∞` when `cost > 0` (hence the `⊤` branch), while `0.0 / 0.0` is `NaN`,
which `NaN.round().max(1.0)` sends to `1.0` — the same value the real-valued
branch yields at `cost = 0` (Lean's `0 / 0 = 0` junk value, rounded and capped
below at `1`).  Elsewhere the `f32` computation is idealised over `ℝ`. -/
noncomputable def years_for_points (points cost : Nat) : ENNReal :=
  if points = 0 ∧ cost ≠ 0 then ⊤
  else
    ENNReal.ofReal
      ((max (round ((cost : ℝ) / (points : ℝ) ^ ((1 : ℝ) / 2.75))) 1 : ℤ) : ℝ)

/-- C6: `years_for_points` is monotonically non-increasing in `points` for
fixed `cost`, and always at least `1`.  (At `points = 0` the `f32` division
yields `+∞` for positive cost, which dominates every other value, so the
claim holds on the whole domain.) -/
theorem claim_c6_years_for_points :
    (∀ p1 p2 cost : Nat, p1 ≤ p2 →
      years_for_points p2 cost ≤ years_for_points p1 cost) ∧
    ∀ points cost : Nat, 1 ≤ years_for_points points cost := by
  have hexp : (0 : ℝ) ≤ 1 / 2.75 := by norm_num
  have hone : ∀ points cost : Nat, 1 ≤ years_for_points points cost := by
    intro points cost
    unfold years_for_points
    split
    · exact le_top
    · rw [ENNReal.one_le_ofReal]
      have h1 : (1 : ℤ) ≤ max (round ((cost : ℝ) /
          (points : ℝ) ^ ((1 : ℝ) / 2.75))) 1 := le_max_right _ _
      exact_mod_cast h1
  refine ⟨fun p1 p2 cost h => ?_, hone⟩
  by_cases h1 : p1 = 0
  · subst h1
    by_cases hc : cost = 0
    · subst hc
      have hz : ∀ q : Nat, years_for_points q 0 =
          ENNReal.ofReal ((1 : ℤ) : ℝ) := by
        intro q
        unfold years_for_points
        rw [if_neg (by simp)]
        norm_num
      rw [hz, hz]
    · have htop : years_for_points 0 cost = ⊤ := by
        unfold years_for_points
        rw [if_pos ⟨rfl, hc⟩]
      rw [htop]
      exact le_top
  · have h2 : p2 ≠ 0 := fun h0 => h1 (by omega)
    unfold years_for_points
    rw [if_neg (fun hcon => h2 hcon.1), if_neg (fun hcon => h1 hcon.1)]
    apply ENNReal.ofReal_le_ofReal
    have hmono : (cost : ℝ) / (p2 : ℝ) ^ ((1 : ℝ) / 2.75) ≤
        (cost : ℝ) / (p1 : ℝ) ^ ((1 : ℝ) / 2.75) := by
      refine div_le_div_of_nonneg_left (by positivity) ?_ ?_
      · exact Real.rpow_pos_of_pos
          (by exact_mod_cast Nat.pos_of_ne_zero h1) _
      · exact Real.rpow_le_rpow (by positivity)
          (by exact_mod_cast h) hexp
    have hround : round ((cost : ℝ) / (p2 : ℝ) ^ ((1 : ℝ) / 2.75)) ≤
        round ((cost : ℝ) / (p1 : ℝ) ^ ((1 : ℝ) / 2.75)) := by
      rw [round_eq, round_eq]
      exact Int.floor_le_floor (by linarith)
    exact_mod_cast max_le_max hround le_rfl

/-- Witness for C6 at `points ∈ {1, 10}` and `cost = 10` (the
`test_project_estimate` scenario): more points give a non-larger estimate,
and the estimate is at least a year. -/
theorem claim_c6_witness :
    years_for_points 10 10 ≤ years_for_points 1 10 ∧
    1 ≤ years_for_points 1 10 :=
  ⟨claim_c6_years_for_points.1 1 10 10 (by norm_num),
    claim_c6_years_for_points.2 1 10⟩

/-- `Project::build`
(src/hes-engine/src/projects.rs lines 237-255): advance the implementation of
a `Building` project by `1 / years_for_points(points, cost)` and transition to
`Active` (ongoing) or `Finished` when the accumulated progress reaches `1`,
returning whether the transition occurred; in any other status do nothing and
return `false`. -/
noncomputable def Project.build (p : Project) : Bool × Project :=
  match p.status with
  | Status.Building =>
    if 1 ≤ p.progress + 1 / years_for_points p.points p.cost then
      (true,
        { p with
            progress := p.progress + 1 / years_for_points p.points p.cost
            status :=
              if p.ongoing then Status.Active else Status.Finished })
    else
      (false,
        { p with
            progress := p.progress + 1 / years_for_points p.points p.cost })
  | _ => (false, p)

/-- C7: `build()` is effective only while the status is `Building`: it
advances `progress` by `1 / years_for_points(points, cost)`; when the new
progress reaches `1` it transitions to `Active` if the project is ongoing and
to `Finished` otherwise, returning `true` exactly on the transition; in any
other status it returns `false` and leaves the project unchanged. -/
theorem claim_c7_build (p : Project) :
    (p.status = Status.Building →
      (1 ≤ p.progress + 1 / years_for_points p.points p.cost →
        p.build = (true,
          { p with
              progress :=
                p.progress + 1 / years_for_points p.points p.cost
              status :=
                if p.ongoing then Status.Active else Status.Finished })) ∧
      (¬ 1 ≤ p.progress + 1 / years_for_points p.points p.cost →
        p.build = (false,
          { p with
              progress :=
                p.progress + 1 / years_for_points p.points p.cost }))) ∧
    (p.status ≠ Status.Building → p.build = (false, p)) := by
  constructor
  · intro hb
    constructor <;> intro hp <;>
      · rw [Project.build.eq_def, hb]
        simp [one_div] at hp
        simp [hp, not_le.mp, lt_iff_le_not_le]
  · intro hnb
    cases hst : p.status <;>
      first
        | exact absurd hst hnb
        | simp [Project.build, hst]

/-- A concrete one-point, cost-one policy project under construction
(mirroring `test_build_project` with cost 1). -/
noncomputable def buildProject : Project where
  id := "test_project"
  name := "Test Project"
  kind := ProjectType.Policy
  group := Group.Other
  ongoing := false
  gradual := false
  locked := false
  cost := 1
  base_cost := Cost.Fixed 1
  cost_modifier := 1
  progress := 0
  points := 1
  estimate := 0
  status := Status.Building
  level := 0
  completed_at := 0
  required_majority := 0
  effects := []
  outcomes := []
  upgrades := []
  active_outcome := none
  supporters := []
  opposers := []

/-- Witness for C7: one `build()` step on `buildProject` (progress `0`,
`years_for_points 1 1 = 1`) crosses the threshold and transitions the
non-ongoing project, returning `true`. -/
theorem claim_c7_witness :
    buildProject.status = Status.Building ∧
    buildProject.build = (true, { buildProject with
      progress := buildProject.progress +
        1 / years_for_points buildProject.points buildProject.cost,
      status := if buildProject.ongoing then Status.Active
        else Status.Finished }) := by
  have hy : years_for_points buildProject.points buildProject.cost = 1 := by
    unfold years_for_points
    rw [if_neg (by norm_num [buildProject])]
    norm_num [buildProject, Real.one_rpow]
  refine ⟨rfl, ((claim_c7_build buildProject).1 rfl).1 ?_⟩
  rw [hy]
  norm_num [buildProject]

/-- Modelled from the spec: the value of a named world variable read from the
state by condition evaluation (the condition module is not among the provided
sources; each member maps to the field the corresponding `Effect` arm
mutates). -/
def worldVariableValue (s : State) : WorldVariable → ℚ
  | WorldVariable.Year => (s.world.year : ℚ)
  | WorldVariable.Population => s.world.population
  | WorldVariable.PopulationGrowth => s.population_growth_modifier
  | WorldVariable.Emissions => s.co2_emissions
  | WorldVariable.ExtinctionRate => s.byproduct_mods.biodiversity
  | WorldVariable.Outlook => s.outlook
  | WorldVariable.Temperature => s.temperature_modifier
  | WorldVariable.WaterStress => s.water_stress
  | WorldVariable.SeaLevelRise => s.world.sea_level_rise
  | WorldVariable.SeaLevelRiseRate => s.sea_level_rise_modifier
  | WorldVariable.Precipitation => s.precipitation

/-- Modelled from the spec: evaluate a condition against a read-only snapshot
of the state ("comparator + operand against a named state variable"). -/
def Condition.eval (c : Condition) (s : State) : Bool :=
  match c with
  | Condition.WorldVariable var comp value =>
    comp.eval (worldVariableValue s var) value

/-- Whether every condition of a probability is satisfied by the state — the
gate the outcome selection tests. -/
def Probability.satisfied (pr : Probability) (s : State) : Bool :=
  pr.conditions.all fun c => c.eval s

/-- First-match scan of the outcome list, carrying the index offset. -/
def rollOutcomeAux (s : State) : List Outcome → Nat → Option (Outcome × Nat)
  | [], _ => none
  | o :: rest, i =>
    if o.probability.satisfied s then some (o, i)
    else rollOutcomeAux s rest (i + 1)

/-- Modelled from the spec: `Project::roll_outcome(state, rng)` — the
function itself is not among the provided sources (only its test
`test_project_outcomes` is).  Spec section 4.3: the outcomes' probability
conditions are evaluated in declaration order against the state and the
first outcome whose conditions are all satisfied is selected, returned with
its index; `none` when no outcome matches.  Conditions act as gates, not
weights, so the random generator argument is not consulted by the gate
semantics. -/
def Project.roll_outcome (p : Project) (s : State) (_rng : Nat → ℚ) :
    Option (Outcome × Nat) :=
  rollOutcomeAux s p.outcomes 0

/-- The scan returns the first satisfied outcome with its offset index. -/
theorem rollOutcomeAux_first (s : State) :
    ∀ (l : List Outcome) (k i : Nat) (hi : i < l.length),
      (∀ j (hj : j < i),
        (l.get ⟨j, lt_trans hj hi⟩).probability.satisfied s = false) →
      (l.get ⟨i, hi⟩).probability.satisfied s = true →
      rollOutcomeAux s l k = some (l.get ⟨i, hi⟩, k + i) := by
  intro l
  induction l with
  | nil => intro k i hi; simp at hi
  | cons o rest ih =>
    intro k i hi hprev hsat
    cases i with
    | zero =>
      simp only [List.get] at hsat
      simp [rollOutcomeAux, hsat]
    | succ i =>
      have h0 : o.probability.satisfied s = false := hprev 0 (Nat.succ_pos i)
      simp only [List.get] at hsat h0 ⊢
      rw [rollOutcomeAux, if_neg (by simp [h0])]
      have := ih (k + 1) i (Nat.lt_of_succ_lt_succ hi)
        (fun j hj => hprev (j + 1) (Nat.succ_lt_succ hj)) hsat
      rw [this]
      congr 1
      congr 1
      omega

/-- The scan returns `none` when no outcome is satisfied. -/
theorem rollOutcomeAux_none (s : State) :
    ∀ (l : List Outcome) (k : Nat),
      (∀ o ∈ l, o.probability.satisfied s = false) →
      rollOutcomeAux s l k = none := by
  intro l
  induction l with
  | nil => intro k _; rfl
  | cons o rest ih =>
    intro k hall
    rw [rollOutcomeAux, if_neg (by simp [hall o (by simp)])]
    exact ih (k + 1) fun o' ho' => hall o' (List.mem_cons_of_mem _ ho')

/-- The outcome gated on `year == 10` followed by an unconditioned catch-all,
as in `test_project_outcomes`. -/
def gatedOutcome : Outcome where
  effects := []
  probability :=
    { likelihood := Likelihood.Guaranteed
      conditions :=
        [Condition.WorldVariable WorldVariable.Year Comparator.Equal 10] }

/-- The unconditioned second outcome of `test_project_outcomes`. -/
def defaultOutcome : Outcome where
  effects := []
  probability := { likelihood := Likelihood.Guaranteed, conditions := [] }

/-- The project of `test_project_outcomes`: two outcomes, the first gated on
`year == 10`, the second unconditioned. -/
noncomputable def outcomeProject : Project :=
  { buildProject with outcomes := [gatedOutcome, defaultOutcome] }

/-- `emptyState` with the given year. -/
def stateAtYear (y : Nat) : State :=
  { emptyState with world := { emptyState.world with year := y } }

/-- C9: `roll_outcome` evaluates the outcomes' probability conditions in
declaration order and selects the first outcome whose conditions are all
satisfied, returning it with its index, and returns `none` when no outcome is
satisfied; on the two-outcome project gated on `year == 10`, rolling before
year 10 selects index 1 and rolling at year 10 selects index 0. -/
theorem claim_c9_roll_outcome :
    (∀ (p : Project) (s : State) (rng : Nat → ℚ),
      (∀ o ∈ p.outcomes, o.probability.satisfied s = false) →
      p.roll_outcome s rng = none) ∧
    (∀ (p : Project) (s : State) (rng : Nat → ℚ) (i : Nat)
      (hi : i < p.outcomes.length),
      (∀ j (hj : j < i),
        (p.outcomes.get ⟨j, lt_trans hj hi⟩).probability.satisfied s =
          false) →
      (p.outcomes.get ⟨i, hi⟩).probability.satisfied s = true →
      p.roll_outcome s rng = some (p.outcomes.get ⟨i, hi⟩, i)) ∧
    outcomeProject.roll_outcome (stateAtYear 5) (fun _ => 0) =
      some (defaultOutcome, 1) ∧
    outcomeProject.roll_outcome (stateAtYear 10) (fun _ => 0) =
      some (gatedOutcome, 0) := by
  have h1 : ∀ (p : Project) (s : State) (rng : Nat → ℚ),
      (∀ o ∈ p.outcomes, o.probability.satisfied s = false) →
      p.roll_outcome s rng = none := fun p s rng hall =>
    rollOutcomeAux_none s p.outcomes 0 hall
  have h2 : ∀ (p : Project) (s : State) (rng : Nat → ℚ) (i : Nat)
      (hi : i < p.outcomes.length),
      (∀ j (hj : j < i),
        (p.outcomes.get ⟨j, lt_trans hj hi⟩).probability.satisfied s =
          false) →
      (p.outcomes.get ⟨i, hi⟩).probability.satisfied s = true →
      p.roll_outcome s rng = some (p.outcomes.get ⟨i, hi⟩, i) := by
    intro p s rng i hi hprev hsat
    have := rollOutcomeAux_first s p.outcomes 0 i hi hprev hsat
    simpa [Project.roll_outcome] using this
  refine ⟨h1, h2, ?_, ?_⟩
  · have hgate : gatedOutcome.probability.satisfied (stateAtYear 5) =
        false := by
      norm_num [gatedOutcome, Probability.satisfied, Condition.eval,
        Comparator.eval, worldVariableValue, stateAtYear, emptyState]
    have hdef : defaultOutcome.probability.satisfied (stateAtYear 5) =
        true := rfl
    have := h2 outcomeProject (stateAtYear 5) (fun _ => 0) 1 (by
      norm_num [outcomeProject])
      (fun j hj => by
        interval_cases j
        · simpa [outcomeProject] using hgate)
      (by simpa [outcomeProject] using hdef)
    simpa [outcomeProject] using this
  · have hgate : gatedOutcome.probability.satisfied (stateAtYear 10) =
        true := by
      norm_num [gatedOutcome, Probability.satisfied, Condition.eval,
        Comparator.eval, worldVariableValue, stateAtYear, emptyState]
    have := h2 outcomeProject (stateAtYear 10) (fun _ => 0) 0 (by
      norm_num [outcomeProject])
      (fun j hj => by omega)
      (by simpa [outcomeProject] using hgate)
    simpa [outcomeProject] using this

/-- Witness for C9 instantiating the first-match part at the concrete
year-10 state: the gated first outcome is selected with index 0. -/
theorem claim_c9_witness :
    outcomeProject.roll_outcome (stateAtYear 10) (fun _ => 1) =
      some (outcomeProject.outcomes.get ⟨0, by norm_num [outcomeProject]⟩,
        0) :=
  claim_c9_roll_outcome.2.1 outcomeProject (stateAtYear 10) (fun _ => 1) 0
    (by norm_num [outcomeProject]) (fun j hj => by omega)
    (by
      norm_num [outcomeProject, gatedOutcome, Probability.satisfied,
        Condition.eval, Comparator.eval, worldVariableValue, stateAtYear,
        emptyState])

end Hes

end HalfEarth
